import Mathlib

/-!
Verification of the enum/bitflag reflection generator (`parse_enum.py`).

The program is a line-oriented text scanner: `parse_enum` and
`parse_bitflags` walk the input lines once, maintaining a small mutable
state (result dict, active declaration name, active enclosing class,
brace depth), and `create_enum` prints one fixed text block per dict
entry.  We embed the program shallowly: a Python string is a `List Char`,
the insertion-ordered dict is an association list, and the statements
that can raise (`list[i]` out of range, `str.index` with no occurrence)
are modelled by `Option`, with `none` standing for the unhandled fault.
-/

/-- Characters, as Python strings are scanned character by character. -/
abbrev Str := List Char

/-- Whitespace recognised by Python's `str.strip` / `str.split`. -/
def pyIsSpace (c : Char) : Bool :=
  c = ' ' || c = '\t' || c = '\n' || c = '\r' || c = '\x0b' || c = '\x0c'

/-- Python `str.strip()`: drop leading and trailing whitespace. -/
def pyStrip (s : Str) : Str :=
  ((s.dropWhile pyIsSpace).reverse.dropWhile pyIsSpace).reverse

/-- Helper for `pySplit`: `acc` holds the (reversed) current token. -/
def pySplitAux : Str → Str → List Str
  | [], acc => if acc = [] then [] else [acc.reverse]
  | c :: rest, acc =>
    if pyIsSpace c then
      if acc = [] then pySplitAux rest []
      else acc.reverse :: pySplitAux rest []
    else pySplitAux rest (c :: acc)

/-- Python `str.split()` with no argument: split on runs of whitespace,
discarding empty pieces. -/
def pySplit (s : Str) : List Str := pySplitAux s []

/-- Boolean prefix test on character lists. -/
def isPfx : Str → Str → Bool
  | [], _ => true
  | _ :: _, [] => false
  | c :: cs, d :: ds => c = d && isPfx cs ds

/-- Python's substring test `needle in haystack`. -/
def pyIn : Str → Str → Bool
  | needle, [] => needle.isEmpty
  | needle, d :: rest => isPfx needle (d :: rest) || pyIn needle rest

/-- Index of the first occurrence of `c`, `none` when absent
(Python `str.index` raises `ValueError` there). -/
def firstIdx (c : Char) : Str → Option Nat
  | [] => none
  | d :: rest => if d = c then some 0 else (firstIdx c rest).map (fun n => n + 1)

/-- The code `pos = line.index("("); pos2 = line.index(")");
line[pos + 1:pos2].strip()` shared by the `BEGIN_BITFLAGS` and `FLAG`
branches; `none` models the `ValueError` when a parenthesis is missing. -/
def extractParen (line : Str) : Option Str :=
  match firstIdx '(' line with
  | none => none
  | some pos =>
    match firstIdx ')' line with
    | none => none
    | some pos2 => some (pyStrip ((line.take pos2).drop (pos + 1)))

/-- Result of the `for i in range(len(toks)): if toks[i] == "class": ...`
loop: no `class` token at all, a name found, or an out-of-range index
(`toks[i + 1]` / `toks[i + 2]` past the end). -/
inductive ClassScan where
  | noClass
  | found (name : Str)
  | fault
deriving Repr, DecidableEq

/-- The token scan of the class-detection branch: find the first exact
token `class`; the enclosing-type name is the next token, or the one
after it when the next token is `SDLPP_EXPORT`. -/
def scanClass : List Str → ClassScan
  | [] => ClassScan.noClass
  | t :: rest =>
    if t = "class".data then
      match rest with
      | [] => ClassScan.fault
      | u :: rest2 =>
        if u ≠ "SDLPP_EXPORT".data then ClassScan.found u
        else
          match rest2 with
          | [] => ClassScan.fault
          | v :: _ => ClassScan.found v
    else scanClass rest

/-- The token scan of the enum branch: first token that is none of
`enum`, `class`, `{`. -/
def findEnumName : List Str → Option Str
  | [] => none
  | t :: rest =>
    if t ≠ "enum".data ∧ t ≠ "class".data ∧ t ≠ "\x7b".data then some t
    else findEnumName rest

/-- The enumerator-recording loop: first token whose strip is non-empty. -/
def findFirstNonempty : List Str → Option Str
  | [] => none
  | t :: rest =>
    let name := pyStrip t
    if name.length > 0 then some name else findFirstNonempty rest

/-- The Python result dict: an insertion-ordered association list. -/
abbrev Dict := List (Str × List Str)

/-- Python `d[k] = v`: replace in place when the key exists, else append. -/
def dictSet (d : Dict) (k : Str) (v : List Str) : Dict :=
  if d.any (fun e => e.1 = k) then
    d.map (fun e => if e.1 = k then (e.1, v) else e)
  else d ++ [(k, v)]

/-- Python `d[k].append(n)` (the key is always present at the call sites:
every assignment to the active name also creates its dict entry). -/
def dictAppend (d : Dict) (k : Str) (n : Str) : Dict :=
  d.map (fun e => if e.1 = k then (e.1, e.2 ++ [n]) else e)

/-- The mutable locals of one scan: `out`, `current_enum`,
`current_class`, `brace`. -/
structure ScanState where
  out : Dict
  current_enum : Str
  current_class : Str
  brace : Int
deriving Repr, DecidableEq

/-- Lines 18–26 / 68–76: the class-detection branch. `none` models the
`IndexError` raised inside the token loop. -/
def classStep (s : ScanState) (line : Str) : Option ScanState :=
  if pyIn "class".data line = true ∧ pyIn "enum".data line = false ∧
      s.current_class = [] then
    match scanClass (pySplit line) with
    | ClassScan.noClass => some s
    | ClassScan.found name => some { s with current_class := name }
    | ClassScan.fault => none
  else some s

/-- The depth right after the `if "{" in line: brace = brace + 1`
statement (line 29 / 79). -/
def braceAfterOpen (s : ScanState) (line : Str) : Int :=
  if pyIn "\x7b".data line = true then s.brace + 1 else s.brace

/-- Lines 27–33 / 77–83: brace-depth tracking while a class is active;
the increment for `{` is applied before the decrement for `}`, and the
class is cleared exactly when the depth reaches zero. -/
def braceStep (s : ScanState) (line : Str) : ScanState :=
  if s.current_class ≠ [] then
    if pyIn "\x7d".data line = true then
      if braceAfterOpen s line - 1 = 0 then
        { s with brace := braceAfterOpen s line - 1, current_class := [] }
      else { s with brace := braceAfterOpen s line - 1 }
    else { s with brace := braceAfterOpen s line }
  else s

/-- Lines 84–103: the enum-declaration / enum-end / enumerator logic of
`parse_enum`. -/
def enumStep (s : ScanState) (line : Str) : ScanState :=
  if pyIn "enum".data line = true then
    match findEnumName (pySplit line) with
    | none => s
    | some nm =>
      let q := if s.current_class ≠ [] then
        s.current_class ++ "::".data ++ nm else nm
      { s with current_enum := q, out := dictSet s.out q [] }
  else
    if pyIn "\x7d".data line = true then { s with current_enum := [] }
    else
      if s.current_enum ≠ [] then
        match findFirstNonempty (pySplit line) with
        | none => s
        | some nm => { s with out := dictAppend s.out s.current_enum nm }
      else s

/-- Lines 34–51: the `BEGIN_BITFLAGS` / `END_BITFLAGS` / `FLAG` logic of
`parse_bitflags`; `none` models the `ValueError` of a missing
parenthesis. -/
def bitflagStep (s : ScanState) (line : Str) : Option ScanState :=
  if pyIn "BEGIN_BITFLAGS".data line = true then
    match extractParen line with
    | none => none
    | some nm =>
      let q := if s.current_class ≠ [] then
        s.current_class ++ "::".data ++ nm else nm
      some { s with current_enum := q, out := dictSet s.out q [] }
  else
    if s.current_enum ≠ [] then
      if pyIn "END_BITFLAGS".data line = true then
        some { s with current_enum := [] }
      else
        if pyIn "FLAG".data line = true then
          match extractParen line with
          | none => none
          | some nm =>
            if nm.length > 0 then
              some { s with out := dictAppend s.out s.current_enum nm }
            else some s
        else some s
    else some s

/-- The body of `parse_enum`'s loop for one raw line: strip, skip blank
and `using` lines, then class detection, brace tracking, enum logic. -/
def enumLine (s : ScanState) (raw : Str) : Option ScanState :=
  let line := pyStrip raw
  if line = [] then some s
  else if pyIn "using".data line = true then some s
  else (classStep s line).map (fun s1 => enumStep (braceStep s1 line) line)

/-- The body of `parse_bitflags`'s loop for one raw line. -/
def bitflagLine (s : ScanState) (raw : Str) : Option ScanState :=
  let line := pyStrip raw
  if line = [] then some s
  else if pyIn "using".data line = true then some s
  else (classStep s line).bind (fun s1 => bitflagStep (braceStep s1 line) line)

/-- Run a per-line step over the lines of the file, propagating a fault. -/
def runLines (step : ScanState → Str → Option ScanState) :
    ScanState → List Str → Option ScanState
  | s, [] => some s
  | s, l :: rest =>
    match step s l with
    | none => none
    | some stNew => runLines step stNew rest

/-- The initial scan state: empty dict, no active enum, no active class,
brace depth zero. -/
def initState : ScanState := { out := [], current_enum := [], current_class := [], brace := 0 }

/-- The enum scanner, on the list of lines of the input file; `none`
models the process dying on an unhandled exception. -/
def parse_enum (lines : List Str) : Option Dict :=
  (runLines enumLine initState lines).map ScanState.out

/-- The bitflag scanner, on the list of lines of the input file. -/
def parse_bitflags (lines : List Str) : Option Dict :=
  (runLines bitflagLine initState lines).map ScanState.out

/-- Helper for `pyReplace`, with explicit fuel (each step consumes at
least one character, so `s.length` fuel is always enough). -/
def pyReplaceAux : Nat → Str → Str → Str → Str
  | 0, s, _, _ => s
  | fuel + 1, s, pat, rep =>
    match s with
    | [] => []
    | c :: rest =>
      if pat ≠ [] ∧ isPfx pat s = true then
        rep ++ pyReplaceAux fuel (s.drop pat.length) pat rep
      else c :: pyReplaceAux fuel rest pat rep

/-- Python `s.replace(pat, rep)`: replace every non-overlapping
occurrence, left to right. -/
def pyReplace (s pat rep : Str) : Str := pyReplaceAux s.length s pat rep

/-- Python `sep.join(pieces)`. -/
def joinSep (sep : Str) : List Str → Str
  | [] => []
  | [x] => x
  | x :: y :: rest => x ++ sep ++ joinSep sep (y :: rest)

/-- Lines 108–135: the text printed by one iteration of `create_enum`'s
loop for the entry `enum ↦ vals` (including the newline appended by
`print`).  Literal braces of the C++ template are written `\x7b`/`\x7d`. -/
def enumBlock (enum : Str) (vals : List Str) (is_bf : Bool) : Str :=
  let ty := if is_bf then enum ++ "::flag_type".data else enum
  let descr := pyReplace enum "::".data "_".data
  let joined := joinSep "\n\t\t\t".data
    (vals.map (fun v => enum ++ "::".data ++ v ++ ",".data))
  "\n        namespace detail \x7b\n             static inline constexpr std::array<".data
  ++ ty ++ ", ".data ++ (Nat.repr vals.length).data ++ "> s_vals_of_".data
  ++ descr ++ " = \x7b\n             ".data
  ++ joined
  ++ "\n             \x7d;       \n        \x7d\n        template <typename T>\n        static inline constexpr const decltype(detail::s_vals_of_".data
  ++ descr
  ++ ")& \n        values(typename std::enable_if<std::is_same_v<".data
  ++ enum
  ++ ", T>>::type* = nullptr) \x7b\n            return detail::s_vals_of_".data
  ++ descr
  ++ ";\n        \x7d \n        template <typename T>\n        static inline constexpr auto  \n        begin(typename std::enable_if<std::is_same_v<".data
  ++ enum
  ++ ", T>>::type* = nullptr) \x7b\n            return detail::s_vals_of_".data
  ++ descr
  ++ ".begin();\n        \x7d \n        template <typename T>\n        static inline constexpr auto \n        end(typename std::enable_if<std::is_same_v<".data
  ++ enum
  ++ ", T>>::type* = nullptr) \x7b\n            return detail::s_vals_of_".data
  ++ descr
  ++ ".end();\n        \x7d \n        \n".data

/-- The Code Emitter `create_enum(enums, is_bf)`: one block per dict
entry, in insertion order; the value is the full text it prints. -/
def create_enum (enums : Dict) (is_bf : Bool) : Str :=
  (enums.map (fun e => enumBlock e.1 e.2 is_bf)).foldl (fun acc b => acc ++ b) []

/-- One run of the emitter with standard output modelled explicitly as
an accumulating character stream. -/
def runCreateEnum (enums : Dict) (is_bf : Bool) (stdout : Str) : Str :=
  stdout ++ create_enum enums is_bf

/-- Net brace-depth change a line causes in `braceStep`: `+1` when it
contains `{`, `-1` when it contains `}`. -/
def braceDelta (line : Str) : Int :=
  (if pyIn "\x7b".data line = true then 1 else 0)
    - (if pyIn "\x7d".data line = true then 1 else 0)

/-- Record a list of names, in order, under key `k`. -/
def appendAll (d : Dict) (k : Str) (es : List Str) : Dict :=
  es.foldl (fun dd n => dictAppend dd k n) d


/-! ### Lemmas about the string helpers -/

theorem dropWhile_eq_self_of_all {p : Char → Bool} {l : Str}
    (h : ∀ c ∈ l, p c = false) : l.dropWhile p = l := by
  cases l with
  | nil => rfl
  | cons c rest =>
    rw [List.dropWhile_cons, h c (List.mem_cons_self c rest)]
    simp

theorem pyStrip_eq_self_of_all {l : Str}
    (h : ∀ c ∈ l, pyIsSpace c = false) : pyStrip l = l := by
  unfold pyStrip
  rw [dropWhile_eq_self_of_all h,
    dropWhile_eq_self_of_all (fun c hc => h c (List.mem_reverse.mp hc)),
    List.reverse_reverse]

theorem length_dropWhile_le (p : Char → Bool) (l : Str) :
    (l.dropWhile p).length ≤ l.length := by
  induction l with
  | nil => exact Nat.le_refl _
  | cons c rest ih =>
    rw [List.dropWhile_cons]
    by_cases h : p c = true
    · simp only [h, if_pos]
      exact Nat.le_trans ih (Nat.le_succ _)
    · simp [h]

theorem head_not_space_of_strip_id {c : Char} {rest : Str}
    (h : pyStrip (c :: rest) = c :: rest) : pyIsSpace c = false := by
  by_contra hc
  rw [Bool.not_eq_false] at hc
  have hlen : (pyStrip (c :: rest)).length ≤ rest.length := by
    unfold pyStrip
    rw [List.dropWhile_cons, if_pos hc, List.length_reverse]
    exact Nat.le_trans (length_dropWhile_le _ _)
      (by rw [List.length_reverse]; exact length_dropWhile_le _ _)
  rw [h] at hlen
  exact absurd hlen (by simp [Nat.lt_irrefl])

theorem pySplitAux_tokens {l acc : Str}
    (hacc : ∀ c ∈ acc, pyIsSpace c = false) :
    ∀ t ∈ pySplitAux l acc, t ≠ [] ∧ ∀ c ∈ t, pyIsSpace c = false := by
  induction l generalizing acc with
  | nil =>
    intro t ht
    unfold pySplitAux at ht
    by_cases h : acc = []
    · simp [h] at ht
    · rw [if_neg h] at ht
      rcases List.mem_singleton.mp ht with rfl
      refine ⟨by simpa using h, fun c hc => hacc c (List.mem_reverse.mp hc)⟩
  | cons c rest ih =>
    intro t ht
    unfold pySplitAux at ht
    by_cases hc : pyIsSpace c = true
    · rw [if_pos hc] at ht
      by_cases h : acc = []
      · rw [if_pos h] at ht
        exact ih (by intro x hx; cases hx) t ht
      · rw [if_neg h] at ht
        rcases List.mem_cons.mp ht with rfl | ht2
        · refine ⟨by simpa using h, fun x hx => hacc x (List.mem_reverse.mp hx)⟩
        · exact ih (by intro x hx; cases hx) t ht2
    · rw [Bool.not_eq_true] at hc
      rw [if_neg (by simp [hc])] at ht
      refine ih ?_ t ht
      intro x hx
      rcases List.mem_cons.mp hx with rfl | hx2
      · exact hc
      · exact hacc x hx2

theorem pySplit_tokens {l : Str} :
    ∀ t ∈ pySplit l, t ≠ [] ∧ ∀ c ∈ t, pyIsSpace c = false :=
  pySplitAux_tokens (by intro x hx; cases hx)

theorem pySplitAux_ne_nil {l acc : Str} (h : acc ≠ []) :
    pySplitAux l acc ≠ [] := by
  induction l generalizing acc with
  | nil =>
    unfold pySplitAux
    rw [if_neg h]
    simp
  | cons c rest ih =>
    unfold pySplitAux
    by_cases hc : pyIsSpace c = true
    · simp [hc, h]
    · rw [if_neg (by simp [hc])]
      exact ih (by simp)

theorem pySplit_ne_nil {l : Str} (hs : pyStrip l = l) (h0 : l ≠ []) :
    pySplit l ≠ [] := by
  cases l with
  | nil => exact absurd rfl h0
  | cons c rest =>
    have hc : pyIsSpace c = false := head_not_space_of_strip_id hs
    unfold pySplit pySplitAux
    rw [if_neg (by simp [hc])]
    exact pySplitAux_ne_nil (by simp)

theorem pySplitAux_no_space {l : Str} (h : ∀ c ∈ l, pyIsSpace c = false) :
    ∀ acc : Str, pySplitAux l acc =
      if acc.reverse ++ l = [] then [] else [acc.reverse ++ l] := by
  induction l with
  | nil =>
    intro acc
    unfold pySplitAux
    by_cases ha : acc = []
    · simp [ha]
    · rw [if_neg ha, List.append_nil, if_neg (by simpa using ha)]
  | cons c rest ih =>
    intro acc
    have hc : pyIsSpace c = false := h c (List.mem_cons_self c rest)
    unfold pySplitAux
    rw [if_neg (by simp [hc])]
    rw [ih (fun x hx => h x (List.mem_cons_of_mem c hx)) (c :: acc)]
    have hne : acc.reverse ++ c :: rest ≠ [] := by simp
    rw [if_neg (by simp), if_neg hne]
    simp

theorem pySplit_single {l : Str} (h : ∀ c ∈ l, pyIsSpace c = false)
    (h0 : l ≠ []) : pySplit l = [l] := by
  unfold pySplit
  rw [pySplitAux_no_space h []]
  simp [h0]

theorem findFirstNonempty_tokens {ts : List Str}
    (h : ∀ t ∈ ts, t ≠ [] ∧ ∀ c ∈ t, pyIsSpace c = false) :
    findFirstNonempty ts = ts.head? := by
  cases ts with
  | nil => rfl
  | cons t rest =>
    obtain ⟨h1, h2⟩ := h t (List.mem_cons_self t rest)
    unfold findFirstNonempty
    rw [pyStrip_eq_self_of_all h2]
    simp [List.length_pos, h1]

theorem findFirstNonempty_pySplit (l : Str) :
    findFirstNonempty (pySplit l) = (pySplit l).head? :=
  findFirstNonempty_tokens (fun t ht => pySplit_tokens t ht)

theorem findEnumName_eq_find? (ts : List Str) :
    findEnumName ts = ts.find? (fun t =>
      decide (t ≠ "enum".data ∧ t ≠ "class".data ∧ t ≠ "\x7b".data)) := by
  induction ts with
  | nil => rfl
  | cons t rest ih =>
    unfold findEnumName
    rw [List.find?_cons]
    by_cases h : t ≠ "enum".data ∧ t ≠ "class".data ∧ t ≠ "\x7b".data
    · rw [if_pos h]
      simp [h]
    · rw [if_neg h]
      rw [ih]
      simp only [decide_eq_true_eq]
      simp [h]

theorem findEnumName_mem {ts : List Str} {t : Str}
    (h : findEnumName ts = some t) : t ∈ ts := by
  induction ts with
  | nil => exact absurd h (by simp [findEnumName])
  | cons u rest ih =>
    unfold findEnumName at h
    by_cases hu : u ≠ "enum".data ∧ u ≠ "class".data ∧ u ≠ "\x7b".data
    · rw [if_pos hu] at h
      rcases Option.some_inj.mp h with rfl
      exact List.mem_cons_self _ _
    · rw [if_neg hu] at h
      exact List.mem_cons_of_mem _ (ih h)

theorem pyIn_of_isPfx {n l : Str} (hp : isPfx n l = true) (h0 : l ≠ []) :
    pyIn n l = true := by
  cases l with
  | nil => exact absurd rfl h0
  | cons d rest =>
    unfold pyIn
    rw [hp]
    simp

theorem firstIdx_cons (c d : Char) (l : Str) :
    firstIdx c (d :: l) =
      if d = c then some 0 else (firstIdx c l).map (fun n => n + 1) := rfl

theorem firstIdx_append {c : Char} {l : Str} (r : Str) (h : c ∉ l) :
    firstIdx c (l ++ r) = (firstIdx c r).map (fun n => n + l.length) := by
  induction l with
  | nil => simp
  | cons d rest ih =>
    have hd : ¬ d = c := by
      intro hdc
      exact h (by rw [hdc]; exact List.mem_cons_self _ _)
    rw [List.cons_append, firstIdx_cons, if_neg hd,
      ih (fun hm => h (List.mem_cons_of_mem _ hm))]
    cases hfi : firstIdx c r with
    | none => rfl
    | some n => simp [Nat.add_assoc]

theorem extractParen_none {l : Str}
    (h : firstIdx '(' l = none ∨ firstIdx ')' l = none) :
    extractParen l = none := by
  unfold extractParen
  rcases h with h | h
  · rw [h]
  · cases hfi : firstIdx '(' l with
    | none => rfl
    | some p => rw [h]

/-- Literal fragments used to build the bitflag family inputs. -/
def mkBegin (nm : Str) : Str := "BEGIN_BITFLAGS(".data ++ nm ++ ")".data

/-- The line `FLAG(x)`. -/
def mkFlag (x : Str) : Str := "FLAG(".data ++ x ++ ")".data

theorem extractParen_mkBegin {nm : Str} (hs : pyStrip nm = nm)
    (hr : ')' ∉ nm) : extractParen (mkBegin nm) = some nm := by
  have h1 : firstIdx '(' (mkBegin nm) = some 14 := rfl
  have h2 : firstIdx ')' (mkBegin nm) = some (15 + nm.length) := by
    unfold mkBegin
    rw [List.append_assoc, firstIdx_append (nm ++ ")".data) (by decide),
      firstIdx_append ")".data hr]
    have e1 : firstIdx ')' ")".data = some 0 := rfl
    have hL : ("BEGIN_BITFLAGS(".data).length = 15 := rfl
    rw [e1, Option.map_some', Option.map_some', hL]
    congr 1
    omega
  have hlen : ("BEGIN_BITFLAGS(".data ++ nm).length = 15 + nm.length := by
    rw [List.length_append]
    have hL : ("BEGIN_BITFLAGS(".data).length = 15 := rfl
    rw [hL]
  have htake : (mkBegin nm).take (15 + nm.length) =
      "BEGIN_BITFLAGS(".data ++ nm := by
    rw [← hlen]
    show (("BEGIN_BITFLAGS(".data ++ nm) ++ ")".data).take
      (("BEGIN_BITFLAGS(".data ++ nm).length) = _
    exact List.take_left _ _
  have hdrop : ("BEGIN_BITFLAGS(".data ++ nm).drop (14 + 1) = nm := by
    have h15 : (14 + 1) = ("BEGIN_BITFLAGS(".data).length := rfl
    rw [h15, List.drop_left]
  unfold extractParen
  rw [h1, h2]
  show some (pyStrip (((mkBegin nm).take (15 + nm.length)).drop (14 + 1)))
    = some nm
  rw [htake, hdrop, hs]

theorem extractParen_mkFlag {x : Str} (hs : pyStrip x = x)
    (hr : ')' ∉ x) : extractParen (mkFlag x) = some x := by
  have h1 : firstIdx '(' (mkFlag x) = some 4 := rfl
  have h2 : firstIdx ')' (mkFlag x) = some (5 + x.length) := by
    unfold mkFlag
    rw [List.append_assoc, firstIdx_append (x ++ ")".data) (by decide),
      firstIdx_append ")".data hr]
    have e1 : firstIdx ')' ")".data = some 0 := rfl
    have hL : ("FLAG(".data).length = 5 := rfl
    rw [e1, Option.map_some', Option.map_some', hL]
    congr 1
    omega
  have hlen : ("FLAG(".data ++ x).length = 5 + x.length := by
    rw [List.length_append]
    have hL : ("FLAG(".data).length = 5 := rfl
    rw [hL]
  have htake : (mkFlag x).take (5 + x.length) = "FLAG(".data ++ x := by
    rw [← hlen]
    show (("FLAG(".data ++ x) ++ ")".data).take
      (("FLAG(".data ++ x).length) = _
    exact List.take_left _ _
  have hdrop : ("FLAG(".data ++ x).drop (4 + 1) = x := by
    have h5 : (4 + 1) = ("FLAG(".data).length := rfl
    rw [h5, List.drop_left]
  unfold extractParen
  rw [h1, h2]
  show some (pyStrip (((mkFlag x).take (5 + x.length)).drop (4 + 1))) = some x
  rw [htake, hdrop, hs]

theorem pyStrip_id_cons_concat {c d : Char} (m : Str)
    (hc : pyIsSpace c = false) (hd : pyIsSpace d = false) :
    pyStrip (c :: (m ++ [d])) = c :: (m ++ [d]) := by
  unfold pyStrip
  rw [List.dropWhile_cons, hc]
  simp only [if_false, Bool.false_eq_true]
  have hrev : (c :: (m ++ [d])).reverse = d :: (m.reverse ++ [c]) := by
    simp
  rw [hrev, List.dropWhile_cons, hd]
  simp only [if_false, Bool.false_eq_true]
  rw [← hrev, List.reverse_reverse]

theorem pyStrip_mkBegin (nm : Str) : pyStrip (mkBegin nm) = mkBegin nm := by
  have hshape : mkBegin nm = 'B' :: (("EGIN_BITFLAGS(".data ++ nm) ++ [')']) := by
    unfold mkBegin
    simp
  rw [hshape]
  exact pyStrip_id_cons_concat _ (by decide) (by decide)

theorem pyStrip_mkFlag (x : Str) : pyStrip (mkFlag x) = mkFlag x := by
  have hshape : mkFlag x = 'F' :: (("LAG(".data ++ x) ++ [')']) := by
    unfold mkFlag
    simp
  rw [hshape]
  exact pyStrip_id_cons_concat _ (by decide) (by decide)

/-! ### Lemmas about the dict operations -/

theorem dictSet_nil (k : Str) (v : List Str) : dictSet [] k v = [(k, v)] := by
  simp [dictSet]

theorem dictSet_same (k : Str) (v0 v : List Str) :
    dictSet [(k, v0)] k v = [(k, v)] := by
  simp [dictSet]

theorem dictSet_new {k1 k2 : Str} (h : k2 ≠ k1) (v1 v : List Str) :
    dictSet [(k1, v1)] k2 v = [(k1, v1), (k2, v)] := by
  have h2 : ¬ k1 = k2 := fun he => h he.symm
  simp [dictSet, h2]

theorem dictAppend_single (k : Str) (v : List Str) (n : Str) :
    dictAppend [(k, v)] k n = [(k, v ++ [n])] := by
  simp [dictAppend]

theorem dictAppend_cons_other {k1 k : Str} (h : k1 ≠ k) (v1 : List Str)
    (d : Dict) (n : Str) :
    dictAppend ((k1, v1) :: d) k n = (k1, v1) :: dictAppend d k n := by
  simp [dictAppend, h]

theorem appendAll_single (k : Str) (v : List Str) (es : List Str) :
    appendAll [(k, v)] k es = [(k, v ++ es)] := by
  induction es generalizing v with
  | nil => simp [appendAll]
  | cons e rest ih =>
    show appendAll (dictAppend [(k, v)] k e) k rest = _
    rw [dictAppend_single, ih]
    simp

theorem appendAll_cons_other {k1 k : Str} (h : k1 ≠ k) (v1 : List Str)
    (d : Dict) (es : List Str) :
    appendAll ((k1, v1) :: d) k es = (k1, v1) :: appendAll d k es := by
  induction es generalizing d with
  | nil => rfl
  | cons e rest ih =>
    show appendAll (dictAppend ((k1, v1) :: d) k e) k rest = _
    rw [dictAppend_cons_other h, ih]
    rfl

theorem appendAll_cons_name (d : Dict) (k e : Str) (es : List Str) :
    appendAll d k (e :: es) = appendAll (dictAppend d k e) k es := rfl

theorem dictSet_mem_empty {d : Dict} {k : Str} {e : Str × List Str}
    (h : e ∈ dictSet d k []) : e.2 = [] ∨ e ∈ d := by
  unfold dictSet at h
  by_cases hc : d.any (fun x => x.1 = k)
  · rw [if_pos hc] at h
    rcases List.mem_map.mp h with ⟨x, hx, hxe⟩
    by_cases hk : x.1 = k
    · rw [if_pos hk] at hxe
      left
      rw [← hxe]
    · rw [if_neg hk] at hxe
      right
      rw [← hxe]
      exact hx
  · rw [if_neg hc] at h
    rcases List.mem_append.mp h with h2 | h2
    · right; exact h2
    · left
      rcases List.mem_singleton.mp h2 with rfl
      rfl

/-! ### Lemmas about the scan steps -/

theorem classStep_no_class {s : ScanState} {line : Str}
    (h : pyIn "class".data line = false) : classStep s line = some s := by
  simp [classStep, h]

theorem classStep_enum {s : ScanState} {line : Str}
    (h : pyIn "enum".data line = true) : classStep s line = some s := by
  simp [classStep, h]

theorem classStep_active {s : ScanState} {line : Str}
    (h : s.current_class ≠ []) : classStep s line = some s := by
  simp [classStep, h]

theorem classStep_found {s : ScanState} {line : Str} {name : Str}
    (h1 : pyIn "class".data line = true) (h2 : pyIn "enum".data line = false)
    (h3 : s.current_class = [])
    (h4 : scanClass (pySplit line) = ClassScan.found name) :
    classStep s line = some { s with current_class := name } := by
  simp [classStep, h1, h2, h3, h4]

theorem classStep_fault {s : ScanState} {line : Str}
    (h1 : pyIn "class".data line = true) (h2 : pyIn "enum".data line = false)
    (h3 : s.current_class = [])
    (h4 : scanClass (pySplit line) = ClassScan.fault) :
    classStep s line = none := by
  simp [classStep, h1, h2, h3, h4]

theorem classStep_some_fields {s s1 : ScanState} {line : Str}
    (h : classStep s line = some s1) :
    s1.out = s.out ∧ s1.current_enum = s.current_enum ∧
      s1.brace = s.brace := by
  unfold classStep at h
  by_cases hc : pyIn "class".data line = true ∧ pyIn "enum".data line = false ∧
      s.current_class = []
  · rw [if_pos hc] at h
    cases hs : scanClass (pySplit line) with
    | noClass => rw [hs] at h; cases h; exact ⟨rfl, rfl, rfl⟩
    | found name => rw [hs] at h; cases h; exact ⟨rfl, rfl, rfl⟩
    | fault => rw [hs] at h; cases h
  · rw [if_neg hc] at h
    cases h
    exact ⟨rfl, rfl, rfl⟩

theorem braceStep_fields (s : ScanState) (line : Str) :
    (braceStep s line).out = s.out ∧
      (braceStep s line).current_enum = s.current_enum := by
  unfold braceStep
  split_ifs <;> exact ⟨rfl, rfl⟩

theorem braceStep_inactive {s : ScanState} {line : Str}
    (h : s.current_class = []) : braceStep s line = s := by
  simp [braceStep, h]

theorem braceStep_quiet {s : ScanState} {line : Str}
    (h1 : pyIn "\x7b".data line = false) (h2 : pyIn "\x7d".data line = false) :
    braceStep s line = s := by
  unfold braceStep braceAfterOpen
  rw [h1, h2]
  split_ifs <;> first | rfl | (exfalso; simp_all)

theorem braceStep_open {s : ScanState} {line : Str}
    (hcl : s.current_class ≠ [])
    (h1 : pyIn "\x7b".data line = true) (h2 : pyIn "\x7d".data line = false) :
    braceStep s line = { s with brace := s.brace + 1 } := by
  unfold braceStep braceAfterOpen
  rw [if_pos hcl, h1, h2]
  simp

theorem braceStep_close_keep {s : ScanState} {line : Str}
    (hcl : s.current_class ≠ [])
    (h1 : pyIn "\x7b".data line = false) (h2 : pyIn "\x7d".data line = true)
    (hb : s.brace - 1 ≠ 0) :
    braceStep s line = { s with brace := s.brace - 1 } := by
  unfold braceStep braceAfterOpen
  rw [if_pos hcl, h1, h2]
  simp [hb]

theorem braceStep_close_clear {s : ScanState} {line : Str}
    (hcl : s.current_class ≠ [])
    (h1 : pyIn "\x7b".data line = false) (h2 : pyIn "\x7d".data line = true)
    (hb : s.brace - 1 = 0) :
    braceStep s line =
      { s with brace := s.brace - 1, current_class := [] } := by
  unfold braceStep braceAfterOpen
  rw [if_pos hcl, h1, h2]
  simp [hb]

theorem braceStep_openclose_keep {s : ScanState} {line : Str}
    (hcl : s.current_class ≠ [])
    (h1 : pyIn "\x7b".data line = true) (h2 : pyIn "\x7d".data line = true)
    (hb : s.brace + 1 - 1 ≠ 0) :
    braceStep s line = { s with brace := s.brace + 1 - 1 } := by
  have hb2 : ¬ s.brace = 0 := by omega
  unfold braceStep braceAfterOpen
  rw [if_pos hcl, h1, h2]
  simp [hb2]

theorem braceStep_openclose_clear {s : ScanState} {line : Str}
    (hcl : s.current_class ≠ [])
    (h1 : pyIn "\x7b".data line = true) (h2 : pyIn "\x7d".data line = true)
    (hb : s.brace + 1 - 1 = 0) :
    braceStep s line =
      { s with brace := s.brace + 1 - 1, current_class := [] } := by
  have hb2 : s.brace = 0 := by omega
  unfold braceStep braceAfterOpen
  rw [if_pos hcl, h1, h2]
  simp [hb2]

theorem enumStep_decl {s : ScanState} {line : Str} {nm : Str}
    (h : pyIn "enum".data line = true)
    (hf : findEnumName (pySplit line) = some nm) :
    enumStep s line =
      { s with
        current_enum := if s.current_class ≠ [] then
          s.current_class ++ "::".data ++ nm else nm,
        out := dictSet s.out (if s.current_class ≠ [] then
          s.current_class ++ "::".data ++ nm else nm) [] } := by
  simp [enumStep, h, hf]

theorem enumStep_decl_none {s : ScanState} {line : Str}
    (h : pyIn "enum".data line = true)
    (hf : findEnumName (pySplit line) = none) : enumStep s line = s := by
  simp [enumStep, h, hf]

theorem enumStep_close {s : ScanState} {line : Str}
    (h : pyIn "enum".data line = false) (h2 : pyIn "\x7d".data line = true) :
    enumStep s line = { s with current_enum := [] } := by
  simp [enumStep, h, h2]

theorem enumStep_record {s : ScanState} {line : Str} {nm : Str}
    (h : pyIn "enum".data line = false) (h2 : pyIn "\x7d".data line = false)
    (ha : s.current_enum ≠ [])
    (hf : findFirstNonempty (pySplit line) = some nm) :
    enumStep s line =
      { s with out := dictAppend s.out s.current_enum nm } := by
  simp [enumStep, h, h2, ha, hf]

theorem enumStep_idle {s : ScanState} {line : Str}
    (h : pyIn "enum".data line = false) (h2 : pyIn "\x7d".data line = false)
    (ha : s.current_enum = []) : enumStep s line = s := by
  simp [enumStep, h, h2, ha]

theorem bitflagStep_begin {s : ScanState} {line : Str} {nm : Str}
    (h : pyIn "BEGIN_BITFLAGS".data line = true)
    (hx : extractParen line = some nm) :
    bitflagStep s line =
      some { s with
        current_enum := if s.current_class ≠ [] then
          s.current_class ++ "::".data ++ nm else nm,
        out := dictSet s.out (if s.current_class ≠ [] then
          s.current_class ++ "::".data ++ nm else nm) [] } := by
  simp [bitflagStep, h, hx]

theorem bitflagStep_begin_fault {s : ScanState} {line : Str}
    (h : pyIn "BEGIN_BITFLAGS".data line = true)
    (hx : extractParen line = none) : bitflagStep s line = none := by
  simp [bitflagStep, h, hx]

theorem bitflagStep_inactive {s : ScanState} {line : Str}
    (h : pyIn "BEGIN_BITFLAGS".data line = false)
    (ha : s.current_enum = []) : bitflagStep s line = some s := by
  simp [bitflagStep, h, ha]

theorem bitflagStep_end {s : ScanState} {line : Str}
    (h : pyIn "BEGIN_BITFLAGS".data line = false)
    (ha : s.current_enum ≠ [])
    (he : pyIn "END_BITFLAGS".data line = true) :
    bitflagStep s line = some { s with current_enum := [] } := by
  simp [bitflagStep, h, ha, he]

theorem bitflagStep_flag {s : ScanState} {line : Str} {nm : Str}
    (h : pyIn "BEGIN_BITFLAGS".data line = false)
    (ha : s.current_enum ≠ [])
    (he : pyIn "END_BITFLAGS".data line = false)
    (hfl : pyIn "FLAG".data line = true)
    (hx : extractParen line = some nm) (hn : nm ≠ []) :
    bitflagStep s line =
      some { s with out := dictAppend s.out s.current_enum nm } := by
  have hlen : nm.length > 0 := List.length_pos.mpr hn
  simp [bitflagStep, h, ha, he, hfl, hx, hlen]

theorem bitflagStep_flag_empty {s : ScanState} {line : Str}
    (h : pyIn "BEGIN_BITFLAGS".data line = false)
    (ha : s.current_enum ≠ [])
    (he : pyIn "END_BITFLAGS".data line = false)
    (hfl : pyIn "FLAG".data line = true)
    (hx : extractParen line = some []) : bitflagStep s line = some s := by
  simp [bitflagStep, h, ha, he, hfl, hx]

theorem bitflagStep_flag_fault {s : ScanState} {line : Str}
    (h : pyIn "BEGIN_BITFLAGS".data line = false)
    (ha : s.current_enum ≠ [])
    (he : pyIn "END_BITFLAGS".data line = false)
    (hfl : pyIn "FLAG".data line = true)
    (hx : extractParen line = none) : bitflagStep s line = none := by
  simp [bitflagStep, h, ha, he, hfl, hx]

theorem bitflagStep_other {s : ScanState} {line : Str}
    (h : pyIn "BEGIN_BITFLAGS".data line = false)
    (he : pyIn "END_BITFLAGS".data line = false)
    (hfl : pyIn "FLAG".data line = false) : bitflagStep s line = some s := by
  by_cases ha : s.current_enum = []
  · simp [bitflagStep, h, ha]
  · simp [bitflagStep, h, ha, he, hfl]

theorem enumLine_blank {s : ScanState} {raw : Str}
    (h : pyStrip raw = []) : enumLine s raw = some s := by
  simp [enumLine, h]

theorem enumLine_run {s : ScanState} {raw : Str} (hs : pyStrip raw = raw)
    (h0 : raw ≠ []) (hu : pyIn "using".data raw = false) :
    enumLine s raw =
      (classStep s raw).map (fun s1 => enumStep (braceStep s1 raw) raw) := by
  simp [enumLine, hs, h0, hu]

theorem bitflagLine_blank {s : ScanState} {raw : Str}
    (h : pyStrip raw = []) : bitflagLine s raw = some s := by
  simp [bitflagLine, h]

theorem bitflagLine_using {s : ScanState} {raw : Str}
    (hu : pyIn "using".data (pyStrip raw) = true) :
    bitflagLine s raw = some s := by
  unfold bitflagLine
  by_cases h : pyStrip raw = []
  · simp [h]
  · simp [h, hu]

theorem enumLine_using {s : ScanState} {raw : Str}
    (hu : pyIn "using".data (pyStrip raw) = true) :
    enumLine s raw = some s := by
  unfold enumLine
  by_cases h : pyStrip raw = []
  · simp [h]
  · simp [h, hu]

theorem bitflagLine_run {s : ScanState} {raw : Str} (hs : pyStrip raw = raw)
    (h0 : raw ≠ []) (hu : pyIn "using".data raw = false) :
    bitflagLine s raw =
      (classStep s raw).bind
        (fun s1 => bitflagStep (braceStep s1 raw) raw) := by
  simp [bitflagLine, hs, h0, hu]

theorem runLines_nil (step : ScanState → Str → Option ScanState)
    (s : ScanState) : runLines step s [] = some s := rfl

theorem runLines_cons_some {step : ScanState → Str → Option ScanState}
    {s st2 : ScanState} {l : Str} (rest : List Str)
    (h : step s l = some st2) :
    runLines step s (l :: rest) = runLines step st2 rest := by
  simp [runLines, h]

theorem runLines_cons_none {step : ScanState → Str → Option ScanState}
    {s : ScanState} {l : Str} (rest : List Str) (h : step s l = none) :
    runLines step s (l :: rest) = none := by
  simp [runLines, h]

theorem runLines_append (step : ScanState → Str → Option ScanState)
    (s : ScanState) (l1 l2 : List Str) :
    runLines step s (l1 ++ l2) =
      match runLines step s l1 with
      | none => none
      | some s => runLines step s l2 := by
  induction l1 generalizing s with
  | nil => rfl
  | cons l rest ih =>
    rw [List.cons_append]
    cases h : step s l with
    | none =>
      rw [runLines_cons_none (rest ++ l2) h, runLines_cons_none rest h]
    | some s2 =>
      rw [runLines_cons_some (rest ++ l2) h, runLines_cons_some rest h]
      exact ih s2

/-! ### Composite line lemmas for whole-input runs -/

theorem enumLine_header_top {s : ScanState} {h nm : Str}
    (hclass : s.current_class = [])
    (hs : pyStrip h = h) (h0 : h ≠ []) (hu : pyIn "using".data h = false)
    (he : pyIn "enum".data h = true)
    (hf : findEnumName (pySplit h) = some nm) :
    enumLine s h =
      some { s with current_enum := nm, out := dictSet s.out nm [] } := by
  rw [enumLine_run hs h0 hu, classStep_enum he, Option.map_some',
    braceStep_inactive hclass, enumStep_decl he hf]
  simp [hclass]

theorem enumLine_token_top {s : ScanState} {l : Str}
    (hclass : s.current_class = []) (ha : s.current_enum ≠ [])
    (htok : pySplit l = [l])
    (hu : pyIn "using".data l = false) (hc : pyIn "class".data l = false)
    (he : pyIn "enum".data l = false) (hb : pyIn "\x7d".data l = false) :
    enumLine s l =
      some { s with out := dictAppend s.out s.current_enum l } := by
  have hmem : l ∈ pySplit l := by rw [htok]; exact List.mem_singleton.mpr rfl
  obtain ⟨hne, hnosp⟩ := pySplit_tokens l hmem
  have hs : pyStrip l = l := pyStrip_eq_self_of_all hnosp
  have hf : findFirstNonempty (pySplit l) = some l := by
    rw [findFirstNonempty_pySplit, htok]; rfl
  rw [enumLine_run hs hne hu, classStep_no_class hc, Option.map_some',
    braceStep_inactive hclass, enumStep_record he hb ha hf]

theorem enumLine_close_top {s : ScanState} (hclass : s.current_class = []) :
    enumLine s "\x7d".data = some { s with current_enum := [] } := by
  rw [enumLine_run (by decide) (by decide) (by decide),
    classStep_no_class (by decide), Option.map_some',
    braceStep_inactive hclass, enumStep_close (by decide) (by decide)]

theorem runLines_tokens_top {s : ScanState} {es : List Str}
    (hclass : s.current_class = []) (ha : s.current_enum ≠ [])
    (hes : ∀ l ∈ es, pySplit l = [l] ∧ pyIn "using".data l = false ∧
      pyIn "class".data l = false ∧ pyIn "enum".data l = false ∧
      pyIn "\x7d".data l = false) :
    runLines enumLine s es =
      some { s with out := appendAll s.out s.current_enum es } := by
  induction es generalizing s with
  | nil => rfl
  | cons l rest ih =>
    obtain ⟨h1, h2, h3, h4, h5⟩ := hes l (List.mem_cons_self _ _)
    rw [runLines_cons_some rest (enumLine_token_top hclass ha h1 h2 h3 h4 h5)]
    exact ih (s := { s with out := dictAppend s.out s.current_enum l })
      hclass ha (fun l2 hl2 => hes l2 (List.mem_cons_of_mem _ hl2))

theorem runLines_enum_open_block {s : ScanState} {h nm : Str} {es : List Str}
    (hclass : s.current_class = [])
    (hs : pyStrip h = h) (h0 : h ≠ []) (hu : pyIn "using".data h = false)
    (he : pyIn "enum".data h = true)
    (hf : findEnumName (pySplit h) = some nm)
    (hes : ∀ l ∈ es, pySplit l = [l] ∧ pyIn "using".data l = false ∧
      pyIn "class".data l = false ∧ pyIn "enum".data l = false ∧
      pyIn "\x7d".data l = false) :
    runLines enumLine s (h :: es) =
      some { s with current_enum := nm,
                     out := appendAll (dictSet s.out nm []) nm es } := by
  have hnm : nm ≠ [] := (pySplit_tokens nm (findEnumName_mem hf)).1
  rw [runLines_cons_some es (enumLine_header_top hclass hs h0 hu he hf)]
  exact runLines_tokens_top
    (s := { s with current_enum := nm, out := dictSet s.out nm [] })
    hclass hnm hes

theorem runLines_enum_closed_block {s : ScanState} {h nm : Str}
    {es : List Str}
    (hclass : s.current_class = [])
    (hs : pyStrip h = h) (h0 : h ≠ []) (hu : pyIn "using".data h = false)
    (he : pyIn "enum".data h = true)
    (hf : findEnumName (pySplit h) = some nm)
    (hes : ∀ l ∈ es, pySplit l = [l] ∧ pyIn "using".data l = false ∧
      pyIn "class".data l = false ∧ pyIn "enum".data l = false ∧
      pyIn "\x7d".data l = false) :
    runLines enumLine s (h :: (es ++ ["\x7d".data])) =
      some { s with current_enum := [],
                     out := appendAll (dictSet s.out nm []) nm es } := by
  have hsplit : h :: (es ++ ["\x7d".data]) = (h :: es) ++ ["\x7d".data] := rfl
  rw [hsplit, runLines_append,
    runLines_enum_open_block hclass hs h0 hu he hf hes]
  show runLines enumLine _ ["\x7d".data] = _
  rw [runLines_cons_some []
      (enumLine_close_top
        (s := { s with current_enum := nm,
                         out := appendAll (dictSet s.out nm []) nm es })
        hclass),
    runLines_nil]

theorem bitflagLine_begin_top {s : ScanState} {nm : Str}
    (hclass : s.current_class = [])
    (hsn : pyStrip nm = nm) (hrn : ')' ∉ nm)
    (hu : pyIn "using".data (mkBegin nm) = false)
    (hc : pyIn "class".data (mkBegin nm) = false) :
    bitflagLine s (mkBegin nm) =
      some { s with current_enum := nm, out := dictSet s.out nm [] } := by
  have h0 : mkBegin nm ≠ [] := by simp [mkBegin]
  have hbeg : pyIn "BEGIN_BITFLAGS".data (mkBegin nm) = true :=
    pyIn_of_isPfx rfl h0
  rw [bitflagLine_run (pyStrip_mkBegin nm) h0 hu, classStep_no_class hc,
    Option.some_bind, braceStep_inactive hclass,
    bitflagStep_begin hbeg (extractParen_mkBegin hsn hrn)]
  simp [hclass]

theorem bitflagLine_flag_top {s : ScanState} {x : Str}
    (hclass : s.current_class = []) (ha : s.current_enum ≠ [])
    (hx0 : x ≠ []) (hsx : pyStrip x = x) (hrx : ')' ∉ x)
    (hu : pyIn "using".data (mkFlag x) = false)
    (hc : pyIn "class".data (mkFlag x) = false)
    (hnb : pyIn "BEGIN_BITFLAGS".data (mkFlag x) = false)
    (hne : pyIn "END_BITFLAGS".data (mkFlag x) = false) :
    bitflagLine s (mkFlag x) =
      some { s with out := dictAppend s.out s.current_enum x } := by
  have h0 : mkFlag x ≠ [] := by simp [mkFlag]
  have hfl : pyIn "FLAG".data (mkFlag x) = true := pyIn_of_isPfx rfl h0
  rw [bitflagLine_run (pyStrip_mkFlag x) h0 hu, classStep_no_class hc,
    Option.some_bind, braceStep_inactive hclass,
    bitflagStep_flag hnb ha hne hfl (extractParen_mkFlag hsx hrx) hx0]

theorem bitflagLine_end_top {s : ScanState}
    (hclass : s.current_class = []) (ha : s.current_enum ≠ []) :
    bitflagLine s "END_BITFLAGS".data =
      some { s with current_enum := [] } := by
  rw [bitflagLine_run (by decide) (by decide) (by decide),
    classStep_no_class (by decide), Option.some_bind,
    braceStep_inactive hclass, bitflagStep_end (by decide) ha (by decide)]

theorem runLines_flag_lines {s : ScanState} {xs : List Str}
    (hclass : s.current_class = []) (ha : s.current_enum ≠ [])
    (hxs : ∀ x ∈ xs, x ≠ [] ∧ pyStrip x = x ∧ ')' ∉ x ∧
      pyIn "using".data (mkFlag x) = false ∧
      pyIn "class".data (mkFlag x) = false ∧
      pyIn "BEGIN_BITFLAGS".data (mkFlag x) = false ∧
      pyIn "END_BITFLAGS".data (mkFlag x) = false) :
    runLines bitflagLine s (xs.map mkFlag) =
      some { s with out := appendAll s.out s.current_enum xs } := by
  induction xs generalizing s with
  | nil => rfl
  | cons x rest ih =>
    obtain ⟨h1, h2, h3, h4, h5, h6, h7⟩ := hxs x (List.mem_cons_self _ _)
    rw [List.map_cons, runLines_cons_some _
      (bitflagLine_flag_top hclass ha h1 h2 h3 h4 h5 h6 h7)]
    exact ih (s := { s with out := dictAppend s.out s.current_enum x })
      hclass ha (fun x2 hx2 => hxs x2 (List.mem_cons_of_mem _ hx2))

theorem runLines_bf_open_block {s : ScanState} {nm : Str} {xs : List Str}
    (hclass : s.current_class = []) (hn0 : nm ≠ [])
    (hsn : pyStrip nm = nm) (hrn : ')' ∉ nm)
    (hu : pyIn "using".data (mkBegin nm) = false)
    (hc : pyIn "class".data (mkBegin nm) = false)
    (hxs : ∀ x ∈ xs, x ≠ [] ∧ pyStrip x = x ∧ ')' ∉ x ∧
      pyIn "using".data (mkFlag x) = false ∧
      pyIn "class".data (mkFlag x) = false ∧
      pyIn "BEGIN_BITFLAGS".data (mkFlag x) = false ∧
      pyIn "END_BITFLAGS".data (mkFlag x) = false) :
    runLines bitflagLine s (mkBegin nm :: xs.map mkFlag) =
      some { s with current_enum := nm,
                     out := appendAll (dictSet s.out nm []) nm xs } := by
  rw [runLines_cons_some _ (bitflagLine_begin_top hclass hsn hrn hu hc)]
  exact runLines_flag_lines
    (s := { s with current_enum := nm, out := dictSet s.out nm [] })
    hclass hn0 hxs

theorem runLines_bf_closed_block {s : ScanState} {nm : Str} {xs : List Str}
    (hclass : s.current_class = []) (hn0 : nm ≠ [])
    (hsn : pyStrip nm = nm) (hrn : ')' ∉ nm)
    (hu : pyIn "using".data (mkBegin nm) = false)
    (hc : pyIn "class".data (mkBegin nm) = false)
    (hxs : ∀ x ∈ xs, x ≠ [] ∧ pyStrip x = x ∧ ')' ∉ x ∧
      pyIn "using".data (mkFlag x) = false ∧
      pyIn "class".data (mkFlag x) = false ∧
      pyIn "BEGIN_BITFLAGS".data (mkFlag x) = false ∧
      pyIn "END_BITFLAGS".data (mkFlag x) = false) :
    runLines bitflagLine s
      (mkBegin nm :: (xs.map mkFlag ++ ["END_BITFLAGS".data])) =
      some { s with current_enum := [],
                     out := appendAll (dictSet s.out nm []) nm xs } := by
  have hsplit : mkBegin nm :: (xs.map mkFlag ++ ["END_BITFLAGS".data]) =
      (mkBegin nm :: xs.map mkFlag) ++ ["END_BITFLAGS".data] := rfl
  rw [hsplit, runLines_append,
    runLines_bf_open_block hclass hn0 hsn hrn hu hc hxs]
  show runLines bitflagLine _ ["END_BITFLAGS".data] = _
  rw [runLines_cons_some []
      (bitflagLine_end_top
        (s := { s with current_enum := nm,
                         out := appendAll (dictSet s.out nm []) nm xs })
        hclass hn0),
    runLines_nil]

theorem enumLine_classHeader {s : ScanState} {L O : Str}
    (hclass : s.current_class = []) (ha : s.current_enum = [])
    (hs : pyStrip L = L) (h0 : L ≠ []) (hu : pyIn "using".data L = false)
    (hc : pyIn "class".data L = true) (he : pyIn "enum".data L = false)
    (hscan : scanClass (pySplit L) = ClassScan.found O) (hO : O ≠ [])
    (hob : pyIn "\x7b".data L = true) (hcb : pyIn "\x7d".data L = false) :
    enumLine s L =
      some { s with current_class := O, brace := s.brace + 1 } := by
  rw [enumLine_run hs h0 hu, classStep_found hc he hclass hscan,
    Option.map_some',
    braceStep_open (s := { s with current_class := O }) hO hob hcb]
  simp [enumStep, he, hcb, ha]

theorem enumLine_header_inclass {s : ScanState} {L I : Str}
    (hcl : s.current_class ≠ [])
    (hs : pyStrip L = L) (h0 : L ≠ []) (hu : pyIn "using".data L = false)
    (he : pyIn "enum".data L = true)
    (hf : findEnumName (pySplit L) = some I)
    (hob : pyIn "\x7b".data L = true) (hcb : pyIn "\x7d".data L = false) :
    enumLine s L =
      some { s with brace := s.brace + 1,
                     current_enum := s.current_class ++ "::".data ++ I,
                     out := dictSet s.out
                       (s.current_class ++ "::".data ++ I) [] } := by
  rw [enumLine_run hs h0 hu, classStep_enum he, Option.map_some',
    braceStep_open hcl hob hcb,
    enumStep_decl (s := { s with brace := s.brace + 1 }) he hf]
  simp [hcl]

theorem enumLine_token_inclass {s : ScanState} {l : Str}
    (hcl : s.current_class ≠ []) (ha : s.current_enum ≠ [])
    (htok : pySplit l = [l])
    (hu : pyIn "using".data l = false)
    (he : pyIn "enum".data l = false)
    (hob : pyIn "\x7b".data l = false) (hcb : pyIn "\x7d".data l = false) :
    enumLine s l =
      some { s with out := dictAppend s.out s.current_enum l } := by
  have hmem : l ∈ pySplit l := by rw [htok]; exact List.mem_singleton.mpr rfl
  obtain ⟨hne, hnosp⟩ := pySplit_tokens l hmem
  have hs : pyStrip l = l := pyStrip_eq_self_of_all hnosp
  have hf : findFirstNonempty (pySplit l) = some l := by
    rw [findFirstNonempty_pySplit, htok]; rfl
  rw [enumLine_run hs hne hu, classStep_active hcl, Option.map_some',
    braceStep_quiet hob hcb, enumStep_record he hcb ha hf]

theorem enumLine_closeSemi_keep {s : ScanState}
    (hcl : s.current_class ≠ []) (hb : s.brace - 1 ≠ 0) :
    enumLine s "\x7d;".data =
      some { s with brace := s.brace - 1, current_enum := [] } := by
  rw [enumLine_run (by decide) (by decide) (by decide),
    classStep_active hcl, Option.map_some',
    braceStep_close_keep hcl (by decide) (by decide) hb,
    enumStep_close (s := { s with brace := s.brace - 1 })
      (by decide) (by decide)]

theorem enumLine_closeSemi_clear {s : ScanState}
    (hcl : s.current_class ≠ []) (hb : s.brace - 1 = 0) :
    enumLine s "\x7d;".data =
      some { s with brace := s.brace - 1, current_class := [],
                     current_enum := [] } := by
  rw [enumLine_run (by decide) (by decide) (by decide),
    classStep_active hcl, Option.map_some',
    braceStep_close_clear hcl (by decide) (by decide) hb,
    enumStep_close
      (s := { s with brace := s.brace - 1, current_class := [] })
      (by decide) (by decide)]

/-! ### General per-line unfolding and preservation lemmas -/

theorem enumLine_eq {s : ScanState} {raw : Str}
    (h0 : pyStrip raw ≠ []) (hu : pyIn "using".data (pyStrip raw) = false) :
    enumLine s raw = (classStep s (pyStrip raw)).map
      (fun s1 => enumStep (braceStep s1 (pyStrip raw)) (pyStrip raw)) := by
  simp [enumLine, h0, hu]

theorem bitflagLine_eq {s : ScanState} {raw : Str}
    (h0 : pyStrip raw ≠ []) (hu : pyIn "using".data (pyStrip raw) = false) :
    bitflagLine s raw = (classStep s (pyStrip raw)).bind
      (fun s1 => bitflagStep (braceStep s1 (pyStrip raw)) (pyStrip raw)) := by
  simp [bitflagLine, h0, hu]

theorem enumStep_fields (s : ScanState) (line : Str) :
    (enumStep s line).current_class = s.current_class ∧
      (enumStep s line).brace = s.brace := by
  unfold enumStep
  by_cases he : pyIn "enum".data line = true
  · rw [if_pos he]
    cases hf : findEnumName (pySplit line) with
    | none => exact ⟨rfl, rfl⟩
    | some nm => exact ⟨rfl, rfl⟩
  · rw [if_neg he]
    by_cases hb : pyIn "\x7d".data line = true
    · rw [if_pos hb]; exact ⟨rfl, rfl⟩
    · rw [if_neg hb]
      by_cases ha : s.current_enum ≠ []
      · rw [if_pos ha]
        cases hf : findFirstNonempty (pySplit line) with
        | none => exact ⟨rfl, rfl⟩
        | some nm => exact ⟨rfl, rfl⟩
      · rw [if_neg ha]; exact ⟨rfl, rfl⟩

theorem braceStep_active_formula {s : ScanState} {L : Str}
    (hcl : s.current_class ≠ [])
    (hpos : s.brace + braceDelta L ≠ 0) :
    braceStep s L = { s with brace := s.brace + braceDelta L } := by
  by_cases h1 : pyIn "\x7b".data L = true <;>
    by_cases h2 : pyIn "\x7d".data L = true
  · have hδ : s.brace + 1 - 1 = s.brace + braceDelta L := by
      simp [braceDelta, h1, h2]
    rw [braceStep_openclose_keep hcl h1 h2 (by rw [hδ]; exact hpos), hδ]
  · have h2f : pyIn "\x7d".data L = false := by simpa using h2
    have hδ : s.brace + 1 = s.brace + braceDelta L := by
      simp [braceDelta, h1, h2f]
    rw [braceStep_open hcl h1 h2f, hδ]
  · have h1f : pyIn "\x7b".data L = false := by simpa using h1
    have hδ : s.brace - 1 = s.brace + braceDelta L := by
      simp [braceDelta, h1f, h2]
      omega
    rw [braceStep_close_keep hcl h1f h2 (by rw [hδ]; exact hpos), hδ]
  · have h1f : pyIn "\x7b".data L = false := by simpa using h1
    have h2f : pyIn "\x7d".data L = false := by simpa using h2
    have hδ : s.brace + braceDelta L = s.brace := by
      simp [braceDelta, h1f, h2f]
    rw [braceStep_quiet h1f h2f, hδ]

theorem runLines_enum_class_stable :
    ∀ (lines : List Str) (s : ScanState), s.current_class ≠ [] →
    (∀ l ∈ lines, pyStrip l ≠ [] ∧
      pyIn "using".data (pyStrip l) = false) →
    (∀ n, n < lines.length →
      s.brace + (((lines.take (n + 1)).map
        (fun l => braceDelta (pyStrip l))).sum) ≠ 0) →
    ∃ stFin, runLines enumLine s lines = some stFin ∧
      stFin.current_class = s.current_class ∧
      stFin.brace = s.brace +
        ((lines.map (fun l => braceDelta (pyStrip l))).sum) := by
  intro lines
  induction lines with
  | nil =>
    intro s hcl _ _
    exact ⟨s, rfl, rfl, by simp⟩
  | cons l rest ih =>
    intro s hcl hlines hpos
    obtain ⟨hnb, hnu⟩ := hlines l (List.mem_cons_self _ _)
    have hpos0 : s.brace + braceDelta (pyStrip l) ≠ 0 := by
      have := hpos 0 (by simp)
      simpa using this
    have hbr : braceStep s (pyStrip l) =
        { s with brace := s.brace + braceDelta (pyStrip l) } :=
      braceStep_active_formula hcl hpos0
    have hstep : enumLine s l = some (enumStep
        { s with brace := s.brace + braceDelta (pyStrip l) }
        (pyStrip l)) := by
      rw [enumLine_eq hnb hnu, classStep_active hcl, Option.map_some', hbr]
    set st2 := enumStep
      { s with brace := s.brace + braceDelta (pyStrip l) } (pyStrip l)
      with hst2
    obtain ⟨hcl2, hbr2⟩ := enumStep_fields
      { s with brace := s.brace + braceDelta (pyStrip l) } (pyStrip l)
    have hcl2' : st2.current_class = s.current_class := hcl2
    have hbr2' : st2.brace = s.brace + braceDelta (pyStrip l) := hbr2
    obtain ⟨stFin, hrun, hclF, hbrF⟩ := ih st2
      (by rw [hcl2']; exact hcl)
      (fun l2 hl2 => hlines l2 (List.mem_cons_of_mem _ hl2))
      (by
        intro n hn
        have hthis := hpos (n + 1) (by simpa using Nat.succ_lt_succ hn)
        rw [List.take_succ_cons, List.map_cons, List.sum_cons,
          ← Int.add_assoc] at hthis
        rw [hbr2']
        exact hthis)
    refine ⟨stFin, ?_, ?_, ?_⟩
    · rw [runLines_cons_some rest hstep]
      exact hrun
    · rw [hclF, hcl2']
    · rw [hbrF, hbr2', List.map_cons, List.sum_cons]
      exact Int.add_assoc _ _ _

theorem bitflagStep_no_markers {s : ScanState} {L : Str}
    (hbeg : pyIn "BEGIN_BITFLAGS".data L = false)
    (hfl : pyIn "FLAG".data L = false) :
    ∃ st2, bitflagStep s L = some st2 ∧
      st2.current_class = s.current_class ∧ st2.brace = s.brace := by
  unfold bitflagStep
  rw [if_neg (by simp [hbeg])]
  by_cases ha : s.current_enum ≠ []
  · rw [if_pos ha]
    by_cases he : pyIn "END_BITFLAGS".data L = true
    · rw [if_pos he]
      exact ⟨_, rfl, rfl, rfl⟩
    · rw [if_neg he, if_neg (by simp [hfl])]
      exact ⟨s, rfl, rfl, rfl⟩
  · rw [if_neg ha]
    exact ⟨s, rfl, rfl, rfl⟩

theorem runLines_bf_class_stable :
    ∀ (lines : List Str) (s : ScanState), s.current_class ≠ [] →
    (∀ l ∈ lines, pyStrip l ≠ [] ∧
      pyIn "using".data (pyStrip l) = false ∧
      pyIn "BEGIN_BITFLAGS".data (pyStrip l) = false ∧
      pyIn "FLAG".data (pyStrip l) = false) →
    (∀ n, n < lines.length →
      s.brace + (((lines.take (n + 1)).map
        (fun l => braceDelta (pyStrip l))).sum) ≠ 0) →
    ∃ stFin, runLines bitflagLine s lines = some stFin ∧
      stFin.current_class = s.current_class ∧
      stFin.brace = s.brace +
        ((lines.map (fun l => braceDelta (pyStrip l))).sum) := by
  intro lines
  induction lines with
  | nil =>
    intro s hcl _ _
    exact ⟨s, rfl, rfl, by simp⟩
  | cons l rest ih =>
    intro s hcl hlines hpos
    obtain ⟨hnb, hnu, hnbeg, hnfl⟩ := hlines l (List.mem_cons_self _ _)
    have hpos0 : s.brace + braceDelta (pyStrip l) ≠ 0 := by
      have := hpos 0 (by simp)
      simpa using this
    have hbr : braceStep s (pyStrip l) =
        { s with brace := s.brace + braceDelta (pyStrip l) } :=
      braceStep_active_formula hcl hpos0
    obtain ⟨st2, hbf, hcl2, hbr2⟩ := bitflagStep_no_markers
      (s := { s with brace := s.brace + braceDelta (pyStrip l) })
      (L := pyStrip l) hnbeg hnfl
    have hstep : bitflagLine s l = some st2 := by
      rw [bitflagLine_eq hnb hnu, classStep_active hcl, Option.some_bind,
        hbr, hbf]
    obtain ⟨stFin, hrun, hclF, hbrF⟩ := ih st2
      (by rw [hcl2]; exact hcl)
      (fun l2 hl2 => hlines l2 (List.mem_cons_of_mem _ hl2))
      (by
        intro n hn
        have hthis := hpos (n + 1) (by simpa using Nat.succ_lt_succ hn)
        rw [List.take_succ_cons, List.map_cons, List.sum_cons,
          ← Int.add_assoc] at hthis
        rw [hbr2]
        exact hthis)
    refine ⟨stFin, ?_, ?_, ?_⟩
    · rw [runLines_cons_some rest hstep]
      exact hrun
    · rw [hclF, hcl2]
    · rw [hbrF, hbr2, List.map_cons, List.sum_cons]
      exact Int.add_assoc _ _ _

/-! ### Fault propagation lemmas (error handling) -/

theorem bitflagLine_begin_fault {s : ScanState} {raw : Str}
    (hb : pyIn "BEGIN_BITFLAGS".data (pyStrip raw) = true)
    (hu : pyIn "using".data (pyStrip raw) = false)
    (hp : firstIdx '(' (pyStrip raw) = none ∨
      firstIdx ')' (pyStrip raw) = none) :
    bitflagLine s raw = none := by
  have h0 : pyStrip raw ≠ [] := by
    intro h
    rw [h] at hb
    exact absurd hb (by decide)
  rw [bitflagLine_eq h0 hu]
  cases hcs : classStep s (pyStrip raw) with
  | none => rfl
  | some s1 => exact bitflagStep_begin_fault hb (extractParen_none hp)

theorem runLines_bf_begin_fault :
    ∀ (lines : List Str) (s : ScanState) (l : Str), l ∈ lines →
    pyIn "BEGIN_BITFLAGS".data (pyStrip l) = true →
    pyIn "using".data (pyStrip l) = false →
    (firstIdx '(' (pyStrip l) = none ∨ firstIdx ')' (pyStrip l) = none) →
    runLines bitflagLine s lines = none := by
  intro lines
  induction lines with
  | nil => intro s l hl; cases hl
  | cons l0 rest ih =>
    intro s l hl hb hu hp
    rcases List.mem_cons.mp hl with rfl | hmem
    · exact runLines_cons_none rest (bitflagLine_begin_fault hb hu hp)
    · cases hstep : bitflagLine s l0 with
      | none => exact runLines_cons_none rest hstep
      | some s2 =>
        rw [runLines_cons_some rest hstep]
        exact ih s2 l hmem hb hu hp

theorem bitflagLine_flag_fault {s : ScanState} {raw : Str}
    (ha : s.current_enum ≠ [])
    (hnb : pyIn "BEGIN_BITFLAGS".data (pyStrip raw) = false)
    (hne : pyIn "END_BITFLAGS".data (pyStrip raw) = false)
    (hfl : pyIn "FLAG".data (pyStrip raw) = true)
    (hu : pyIn "using".data (pyStrip raw) = false)
    (hp : firstIdx '(' (pyStrip raw) = none ∨
      firstIdx ')' (pyStrip raw) = none) :
    bitflagLine s raw = none := by
  have h0 : pyStrip raw ≠ [] := by
    intro h
    rw [h] at hfl
    exact absurd hfl (by decide)
  rw [bitflagLine_eq h0 hu]
  cases hcs : classStep s (pyStrip raw) with
  | none => rfl
  | some s1 =>
    have he1 : s1.current_enum = s.current_enum :=
      (classStep_some_fields hcs).2.1
    have he2 : (braceStep s1 (pyStrip raw)).current_enum =
        s1.current_enum := (braceStep_fields s1 _).2
    exact bitflagStep_flag_fault hnb
      (by rw [he2, he1]; exact ha) hne hfl (extractParen_none hp)

theorem scanClass_last_class {ts : List Str} (h : "class".data ∉ ts) :
    scanClass (ts ++ ["class".data]) = ClassScan.fault := by
  induction ts with
  | nil => rfl
  | cons t rest ih =>
    have ht : ¬ t = "class".data := fun he =>
      h (by rw [he]; exact List.mem_cons_self _ _)
    rw [List.cons_append]
    unfold scanClass
    rw [if_neg ht]
    exact ih (fun hm => h (List.mem_cons_of_mem _ hm))

theorem bitflagLine_class_fault {s : ScanState} {raw : Str} {ts : List Str}
    (hclass : s.current_class = [])
    (hc : pyIn "class".data (pyStrip raw) = true)
    (he : pyIn "enum".data (pyStrip raw) = false)
    (hu : pyIn "using".data (pyStrip raw) = false)
    (hsplit : pySplit (pyStrip raw) = ts ++ ["class".data])
    (hmem : "class".data ∉ ts) :
    bitflagLine s raw = none := by
  have h0 : pyStrip raw ≠ [] := by
    intro h
    rw [h] at hc
    exact absurd hc (by decide)
  rw [bitflagLine_eq h0 hu,
    classStep_fault hc he hclass
      (by rw [hsplit]; exact scanClass_last_class hmem)]
  rfl

theorem runLines_bf_fault_after {lines pre post : List Str} {s : ScanState}
    {l : Str} (hsplit : lines = pre ++ l :: post)
    (hpre : runLines bitflagLine initState pre = some s)
    (hline : bitflagLine s l = none) :
    parse_bitflags lines = none := by
  unfold parse_bitflags
  rw [hsplit, runLines_append, hpre]
  show (runLines bitflagLine s (l :: post)).map ScanState.out = none
  rw [runLines_cons_none post hline]
  rfl

/-! ### Marker lines never record flag names (C10 support) -/

theorem bitflagStep_end_out {s : ScanState} {L : Str}
    (hnb : pyIn "BEGIN_BITFLAGS".data L = false)
    (hend : pyIn "END_BITFLAGS".data L = true) :
    ∀ {st2 : ScanState}, bitflagStep s L = some st2 → st2.out = s.out := by
  intro st2 h
  unfold bitflagStep at h
  rw [if_neg (by simp [hnb])] at h
  by_cases ha : s.current_enum ≠ []
  · rw [if_pos ha, if_pos hend] at h
    cases h
    rfl
  · rw [if_neg ha] at h
    cases h
    rfl

theorem bitflagStep_begin_out {s : ScanState} {L : Str}
    (hb : pyIn "BEGIN_BITFLAGS".data L = true) :
    ∀ {st2 : ScanState}, bitflagStep s L = some st2 →
      ∀ e ∈ st2.out, e.2 = [] ∨ e ∈ s.out := by
  intro st2 h
  unfold bitflagStep at h
  rw [if_pos hb] at h
  cases hx : extractParen L with
  | none => rw [hx] at h; cases h
  | some nm =>
    rw [hx] at h
    cases h
    intro e he
    exact dictSet_mem_empty he

theorem bitflagStep_flag_empty_out {s : ScanState} {L : Str}
    (hnb : pyIn "BEGIN_BITFLAGS".data L = false)
    (hne : pyIn "END_BITFLAGS".data L = false)
    (hx : extractParen L = some []) : bitflagStep s L = some s := by
  unfold bitflagStep
  rw [if_neg (by simp [hnb])]
  by_cases ha : s.current_enum ≠ []
  · rw [if_pos ha, if_neg (by simp [hne])]
    by_cases hfl : pyIn "FLAG".data L = true
    · rw [if_pos hfl, hx]
      simp
    · rw [if_neg hfl]
  · rw [if_neg ha]

theorem bitflagLine_end_out {s st2 : ScanState} {raw : Str}
    (hend : pyIn "END_BITFLAGS".data (pyStrip raw) = true)
    (hnb : pyIn "BEGIN_BITFLAGS".data (pyStrip raw) = false)
    (hu : pyIn "using".data (pyStrip raw) = false)
    (hrun : bitflagLine s raw = some st2) : st2.out = s.out := by
  have h0 : pyStrip raw ≠ [] := by
    intro h
    rw [h] at hend
    exact absurd hend (by decide)
  rw [bitflagLine_eq h0 hu] at hrun
  cases hcs : classStep s (pyStrip raw) with
  | none => rw [hcs] at hrun; exact absurd hrun (by simp)
  | some s1 =>
    rw [hcs] at hrun
    have hbf : bitflagStep (braceStep s1 (pyStrip raw)) (pyStrip raw) =
        some st2 := hrun
    rw [bitflagStep_end_out hnb hend hbf, (braceStep_fields s1 _).1,
      (classStep_some_fields hcs).1]

theorem bitflagLine_begin_only_empty {s st2 : ScanState} {raw : Str}
    (hb : pyIn "BEGIN_BITFLAGS".data (pyStrip raw) = true)
    (hu : pyIn "using".data (pyStrip raw) = false)
    (hrun : bitflagLine s raw = some st2) :
    ∀ e ∈ st2.out, e.2 = [] ∨ e ∈ s.out := by
  have h0 : pyStrip raw ≠ [] := by
    intro h
    rw [h] at hb
    exact absurd hb (by decide)
  rw [bitflagLine_eq h0 hu] at hrun
  cases hcs : classStep s (pyStrip raw) with
  | none => rw [hcs] at hrun; exact absurd hrun (by simp)
  | some s1 =>
    rw [hcs] at hrun
    have hbf : bitflagStep (braceStep s1 (pyStrip raw)) (pyStrip raw) =
        some st2 := hrun
    intro e he
    rcases bitflagStep_begin_out hb hbf e he with hempty | hmem
    · exact Or.inl hempty
    · right
      rw [(braceStep_fields s1 _).1, (classStep_some_fields hcs).1] at hmem
      exact hmem

theorem bitflagLine_flag_empty_out {s st2 : ScanState} {raw : Str}
    (hnb : pyIn "BEGIN_BITFLAGS".data (pyStrip raw) = false)
    (hne : pyIn "END_BITFLAGS".data (pyStrip raw) = false)
    (hu : pyIn "using".data (pyStrip raw) = false)
    (hx : extractParen (pyStrip raw) = some [])
    (hrun : bitflagLine s raw = some st2) : st2.out = s.out := by
  have h0 : pyStrip raw ≠ [] := by
    intro h
    rw [h] at hx
    exact absurd hx (by decide)
  rw [bitflagLine_eq h0 hu] at hrun
  cases hcs : classStep s (pyStrip raw) with
  | none => rw [hcs] at hrun; exact absurd hrun (by simp)
  | some s1 =>
    rw [hcs] at hrun
    have hbf : bitflagStep (braceStep s1 (pyStrip raw)) (pyStrip raw) =
        some st2 := hrun
    rw [bitflagStep_flag_empty_out hnb hne hx] at hbf
    cases hbf
    rw [(braceStep_fields s1 _).1, (classStep_some_fields hcs).1]

theorem runLines_tokens_inclass {s : ScanState} {es : List Str}
    (hcl : s.current_class ≠ []) (ha : s.current_enum ≠ [])
    (hes : ∀ l ∈ es, pySplit l = [l] ∧ pyIn "using".data l = false ∧
      pyIn "enum".data l = false ∧ pyIn "\x7b".data l = false ∧
      pyIn "\x7d".data l = false) :
    runLines enumLine s es =
      some { s with out := appendAll s.out s.current_enum es } := by
  induction es generalizing s with
  | nil => rfl
  | cons l rest ih =>
    obtain ⟨h1, h2, h3, h4, h5⟩ := hes l (List.mem_cons_self _ _)
    rw [runLines_cons_some rest (enumLine_token_inclass hcl ha h1 h2 h3 h4 h5)]
    exact ih (s := { s with out := dictAppend s.out s.current_enum l })
      hcl ha (fun l2 hl2 => hes l2 (List.mem_cons_of_mem _ hl2))

theorem runLines_inner_enum_block {s : ScanState} {L2 I : Str}
    {es : List Str}
    (hcl : s.current_class ≠ []) (hbr : s.brace = 1)
    (hs2 : pyStrip L2 = L2) (h02 : L2 ≠ [])
    (hu2 : pyIn "using".data L2 = false) (he2 : pyIn "enum".data L2 = true)
    (hf2 : findEnumName (pySplit L2) = some I)
    (hob2 : pyIn "\x7b".data L2 = true) (hcb2 : pyIn "\x7d".data L2 = false)
    (hes : ∀ l ∈ es, pySplit l = [l] ∧ pyIn "using".data l = false ∧
      pyIn "enum".data l = false ∧ pyIn "\x7b".data l = false ∧
      pyIn "\x7d".data l = false) :
    runLines enumLine s (L2 :: (es ++ ["\x7d;".data, "\x7d;".data])) =
      some { s with
             out := appendAll
               (dictSet s.out (s.current_class ++ "::".data ++ I) [])
               (s.current_class ++ "::".data ++ I) es,
             current_enum := [], current_class := [],
             brace := s.brace + 1 - 1 - 1 } := by
  have hq : s.current_class ++ "::".data ++ I ≠ [] := by
    simp [List.append_eq_nil, hcl]
  rw [runLines_cons_some _
    (enumLine_header_inclass hcl hs2 h02 hu2 he2 hf2 hob2 hcb2)]
  have hsplit : es ++ ["\x7d;".data, "\x7d;".data] =
      es ++ ["\x7d;".data] ++ ["\x7d;".data] := by simp
  rw [hsplit, runLines_append, runLines_append]
  rw [runLines_tokens_inclass
    (s := { s with brace := s.brace + 1, current_enum := s.current_class ++ "::".data ++ I, out := dictSet s.out (s.current_class ++ "::".data ++ I) [] })
    hcl hq hes]
  show (match runLines enumLine _ ["\x7d;".data] with
    | none => none
    | some s => runLines enumLine s ["\x7d;".data]) = _
  rw [runLines_cons_some []
    (enumLine_closeSemi_keep
      (s := { s with brace := s.brace + 1, current_enum := s.current_class ++ "::".data ++ I, out := appendAll (dictSet s.out (s.current_class ++ "::".data ++ I) []) (s.current_class ++ "::".data ++ I) es })
      hcl (by show s.brace + 1 - 1 ≠ 0; rw [hbr]; decide)),
    runLines_nil]
  show runLines enumLine _ ["\x7d;".data] = _
  rw [runLines_cons_some []
    (enumLine_closeSemi_clear
      (s := { s with brace := s.brace + 1 - 1, current_enum := [], out := appendAll (dictSet s.out (s.current_class ++ "::".data ++ I) []) (s.current_class ++ "::".data ++ I) es })
      hcl (by show s.brace + 1 - 1 - 1 = 0; rw [hbr]; decide)),
    runLines_nil]

/-! ### Claim theorems -/

/-- C1 counterexample: the claim quantifies over headers followed by N
non-blank single-token enumerator lines, but the identifier token
`busing` contains the substring `using`, so the scanner skips its line
(line 15/66 of the source) and the value list has 0 names instead of 1. -/
theorem claim1_counterexample :
    parse_enum ["enum Color \x7b".data, "busing".data, "\x7d".data] =
      some [("Color".data, [])] ∧
    parse_enum ["enum Color \x7b".data, "busing".data, "\x7d".data] ≠
      some [("Color".data, ["busing".data])] := by
  exact ⟨by decide, by decide⟩

/-- C1 (amended): for a single top-level enum block — a non-blank header
line containing `enum` but not `using`, whose first whitespace token
other than `enum`/`class`/`{` is the name, then N single-token
enumerator lines whose tokens do not contain the substrings `using`,
`class`, `enum` or `}`, then a closing `}` line — `parse_enum` returns a
mapping with exactly one entry whose value list holds exactly the N
enumerator tokens in source order. -/
theorem claim1_theorem (hdr nm : Str) (es : List Str)
    (hs : pyStrip hdr = hdr) (h0 : hdr ≠ [])
    (hu : pyIn "using".data hdr = false)
    (he : pyIn "enum".data hdr = true)
    (hf : (pySplit hdr).find? (fun t =>
      decide (t ≠ "enum".data ∧ t ≠ "class".data ∧ t ≠ "\x7b".data)) =
      some nm)
    (hes : ∀ l ∈ es, pySplit l = [l] ∧ pyIn "using".data l = false ∧
      pyIn "class".data l = false ∧ pyIn "enum".data l = false ∧
      pyIn "\x7d".data l = false) :
    parse_enum (hdr :: (es ++ ["\x7d".data])) = some [(nm, es)] := by
  have hf2 : findEnumName (pySplit hdr) = some nm := by
    rw [findEnumName_eq_find?]
    exact hf
  unfold parse_enum
  rw [runLines_enum_closed_block (s := initState) rfl hs h0 hu he hf2 hes,
    Option.map_some']
  show some (appendAll (dictSet [] nm []) nm es) = some [(nm, es)]
  rw [dictSet_nil, appendAll_single, List.nil_append]

/-- Witness for C1's amended theorem on the spec's own example. -/
theorem claim1_witness :
    parse_enum ["enum class Color \x7b".data, "Red".data, "Green".data,
      "Blue".data, "\x7d".data] =
      some [("Color".data, ["Red".data, "Green".data, "Blue".data])] :=
  claim1_theorem "enum class Color \x7b".data "Color".data
    ["Red".data, "Green".data, "Blue".data]
    (by decide) (by decide) (by decide) (by decide) (by decide) (by decide)

/-- C2 counterexample: the claim quantifies over all `FLAG(x)` lines with
non-empty `x`, but for `x = busing` the line contains the substring
`using` and is skipped, so the entry for `Mask` has 0 flags instead
of 1. -/
theorem claim2_counterexample :
    parse_bitflags ["BEGIN_BITFLAGS(Mask)".data, "FLAG(busing)".data,
      "END_BITFLAGS".data] = some [("Mask".data, [])] ∧
    parse_bitflags ["BEGIN_BITFLAGS(Mask)".data, "FLAG(busing)".data,
      "END_BITFLAGS".data] ≠ some [("Mask".data, ["busing".data])] := by
  exact ⟨by decide, by decide⟩

/-- C2 (amended): for one `BEGIN_BITFLAGS(Name)` line, K `FLAG(x)` lines
and an `END_BITFLAGS` line — where `Name` and every `x` are non-empty,
carry no surrounding whitespace and no `)`, and no constructed line
contains the substrings `using`, `class`, or (for the flag lines)
`BEGIN_BITFLAGS`/`END_BITFLAGS` — `parse_bitflags` returns exactly one
entry keyed `Name` whose value list holds the K flag names in source
order. -/
theorem claim2_theorem (nm : Str) (xs : List Str)
    (hn0 : nm ≠ []) (hsn : pyStrip nm = nm) (hrn : ')' ∉ nm)
    (hu : pyIn "using".data (mkBegin nm) = false)
    (hc : pyIn "class".data (mkBegin nm) = false)
    (hxs : ∀ x ∈ xs, x ≠ [] ∧ pyStrip x = x ∧ ')' ∉ x ∧
      pyIn "using".data (mkFlag x) = false ∧
      pyIn "class".data (mkFlag x) = false ∧
      pyIn "BEGIN_BITFLAGS".data (mkFlag x) = false ∧
      pyIn "END_BITFLAGS".data (mkFlag x) = false) :
    parse_bitflags (mkBegin nm :: (xs.map mkFlag ++ ["END_BITFLAGS".data]))
      = some [(nm, xs)] := by
  unfold parse_bitflags
  rw [runLines_bf_closed_block (s := initState) rfl hn0 hsn hrn hu hc hxs,
    Option.map_some']
  show some (appendAll (dictSet [] nm []) nm xs) = some [(nm, xs)]
  rw [dictSet_nil, appendAll_single, List.nil_append]

/-- Witness for C2's amended theorem on the spec's own example. -/
theorem claim2_witness :
    parse_bitflags ["BEGIN_BITFLAGS(Mask)".data, "FLAG(A)".data,
      "FLAG(B)".data, "END_BITFLAGS".data] =
      some [("Mask".data, ["A".data, "B".data])] :=
  claim2_theorem "Mask".data ["A".data, "B".data]
    (by decide) (by decide) (by decide) (by decide) (by decide) (by decide)

/-- C7: the Code Emitter is a pure function of the mapping and the kind
flag: with standard output modelled as an accumulating stream, the text a
run appends does not depend on what was already printed, and running the
emitter twice in a row prints the same block text twice. -/
theorem claim7_theorem (enums : Dict) (is_bf : Bool) (s1 s2 : Str) :
    (runCreateEnum enums is_bf s1).drop s1.length =
      (runCreateEnum enums is_bf s2).drop s2.length ∧
    runCreateEnum enums is_bf (runCreateEnum enums is_bf s1) =
      s1 ++ create_enum enums is_bf ++ create_enum enums is_bf := by
  unfold runCreateEnum
  constructor
  · rw [List.drop_left, List.drop_left]
  · rfl

/-- C3 counterexample: the line `enumerated` contains the substring
`enum` but not the token `enum`, yet while the enum `Color` is active it
starts a new declaration keyed `enumerated` instead of being recorded as
the next enumerator of `Color`, contradicting the claim's
token-based dispatch. -/
theorem claim3_counterexample :
    parse_enum ["enum Color \x7b".data, "Red".data, "enumerated".data,
      "\x7d".data] =
      some [("Color".data, ["Red".data]), ("enumerated".data, [])] ∧
    "enum".data ∉ pySplit "enumerated".data ∧
    parse_enum ["enum Color \x7b".data, "Red".data, "enumerated".data,
      "\x7d".data] ≠
      some [("Color".data, ["Red".data, "enumerated".data])] := by
  exact ⟨by decide, by decide, by decide⟩

/-- C3 (amended): dispatch in the enum scanner is by substring, not by
token.  For every non-blank stripped line: a line containing the
substring `enum` starts a new declaration exactly when it has a
whitespace-separated token other than `enum`, `class`, `{` — named by
the first such token, qualified by the active enclosing type — and
otherwise leaves the state unchanged; every other line either ends the
active enum (if it contains `}`) or, while an enum is active, has its
first whitespace-separated token recorded as the next enumerator name. -/
theorem claim3_theorem (s : ScanState) (line : Str)
    (hs : pyStrip line = line) (h0 : line ≠ []) :
    (pyIn "enum".data line = true →
      enumStep s line = (match (pySplit line).find? (fun t =>
          decide (t ≠ "enum".data ∧ t ≠ "class".data ∧ t ≠ "\x7b".data)) with
        | none => s
        | some nm =>
          { s with
            current_enum := if s.current_class ≠ [] then
              s.current_class ++ "::".data ++ nm else nm,
            out := dictSet s.out (if s.current_class ≠ [] then
              s.current_class ++ "::".data ++ nm else nm) [] })) ∧
    (pyIn "enum".data line = false → pyIn "\x7d".data line = true →
      enumStep s line = { s with current_enum := [] }) ∧
    (pyIn "enum".data line = false → pyIn "\x7d".data line = false →
      s.current_enum ≠ [] →
      ∃ tok, (pySplit line).head? = some tok ∧
        enumStep s line =
          { s with out := dictAppend s.out s.current_enum tok }) ∧
    (pyIn "enum".data line = false → pyIn "\x7d".data line = false →
      s.current_enum = [] → enumStep s line = s) := by
  refine ⟨?_, ?_, ?_, ?_⟩
  · intro he
    rw [← findEnumName_eq_find?]
    cases hf : findEnumName (pySplit line) with
    | none => exact enumStep_decl_none he hf
    | some nm => exact enumStep_decl he hf
  · intro he hb
    exact enumStep_close he hb
  · intro he hb ha
    have hsp : pySplit line ≠ [] := pySplit_ne_nil hs h0
    cases hspl : pySplit line with
    | nil => exact absurd hspl hsp
    | cons t rest2 =>
      refine ⟨t, rfl, ?_⟩
      have hf : findFirstNonempty (pySplit line) = some t := by
        rw [findFirstNonempty_pySplit, hspl]
        rfl
      exact enumStep_record he hb ha hf
  · intro he hb ha
    exact enumStep_idle he hb ha

/-- Witness for C3's amended theorem: a plain token line while the enum
`E` is active is recorded as its next enumerator. -/
theorem claim3_witness :
    ∃ tok, (pySplit "X".data).head? = some tok ∧
      enumStep ⟨[("E".data, [])], "E".data, [], 0⟩ "X".data =
        { out := dictAppend [("E".data, [])] "E".data tok,
          current_enum := "E".data, current_class := [], brace := 0 } :=
  (claim3_theorem ⟨[("E".data, [])], "E".data, [], 0⟩ "X".data
    (by decide) (by decide)).2.2.1 (by decide) (by decide) (by decide)

/-- C4: while an enclosing type is active, both scanners change the
brace depth by +1 for a line containing `{` and −1 for a line containing
`}` (the final depth is the initial depth plus the sum of the per-line
deltas), and the enclosing-type state survives as long as the running
depth never returns to zero — nested unrelated `{ }` pairs inside the
body do not clear it prematurely.  Lines must be non-blank and free of
`using` (and, for the bitflag scanner, free of `BEGIN_BITFLAGS`/`FLAG`,
whose paren extraction could fault). -/
theorem claim4_theorem :
    (∀ (lines : List Str) (s : ScanState), s.current_class ≠ [] →
      (∀ l ∈ lines, pyStrip l ≠ [] ∧
        pyIn "using".data (pyStrip l) = false) →
      (∀ n, n < lines.length →
        s.brace + (((lines.take (n + 1)).map
          (fun l => braceDelta (pyStrip l))).sum) ≠ 0) →
      ∃ stFin, runLines enumLine s lines = some stFin ∧
        stFin.current_class = s.current_class ∧
        stFin.brace = s.brace +
          ((lines.map (fun l => braceDelta (pyStrip l))).sum)) ∧
    (∀ (lines : List Str) (s : ScanState), s.current_class ≠ [] →
      (∀ l ∈ lines, pyStrip l ≠ [] ∧
        pyIn "using".data (pyStrip l) = false ∧
        pyIn "BEGIN_BITFLAGS".data (pyStrip l) = false ∧
        pyIn "FLAG".data (pyStrip l) = false) →
      (∀ n, n < lines.length →
        s.brace + (((lines.take (n + 1)).map
          (fun l => braceDelta (pyStrip l))).sum) ≠ 0) →
      ∃ stFin, runLines bitflagLine s lines = some stFin ∧
        stFin.current_class = s.current_class ∧
        stFin.brace = s.brace +
          ((lines.map (fun l => braceDelta (pyStrip l))).sum)) :=
  ⟨runLines_enum_class_stable, runLines_bf_class_stable⟩

/-- Witness for C4: a nested `struct S { ... }` pair inside the active
class `Outer` (depth 1) leaves the enclosing-type state intact in both
scanners. -/
theorem claim4_witness :
    (∃ stFin, runLines enumLine ⟨[], [], "Outer".data, 1⟩
        ["struct S \x7b".data, "\x7d;".data] = some stFin ∧
      stFin.current_class = "Outer".data ∧ stFin.brace = 1) ∧
    (∃ stFin, runLines bitflagLine ⟨[], [], "Outer".data, 1⟩
        ["struct S \x7b".data, "\x7d;".data] = some stFin ∧
      stFin.current_class = "Outer".data ∧ stFin.brace = 1) := by
  constructor
  · obtain ⟨stFin, h1, h2, h3⟩ := claim4_theorem.1
      ["struct S \x7b".data, "\x7d;".data] ⟨[], [], "Outer".data, 1⟩
      (by decide) (by decide) (by decide)
    refine ⟨stFin, h1, h2, ?_⟩
    rw [h3]
    decide
  · obtain ⟨stFin, h1, h2, h3⟩ := claim4_theorem.2
      ["struct S \x7b".data, "\x7d;".data] ⟨[], [], "Outer".data, 1⟩
      (by decide) (by decide) (by decide)
    refine ⟨stFin, h1, h2, ?_⟩
    rw [h3]
    decide

theorem scanClass_cons_plain (u : Str) (rest2 : List Str)
    (hu : u ≠ "SDLPP_EXPORT".data) :
    scanClass ("class".data :: u :: rest2) = ClassScan.found u := by
  simp [scanClass, hu]

theorem scanClass_cons_export (v : Str) (rest3 : List Str) :
    scanClass ("class".data :: "SDLPP_EXPORT".data :: v :: rest3) =
      ClassScan.found v := by
  simp [scanClass]

/-- C5: an enum `Inner` declared inside a `class Outer { ... }` body is
keyed `Outer::Inner`; the enclosing-type name is the token following the
token `class` on a class-header line that does not contain `enum`, and
the export-annotation token `SDLPP_EXPORT` is skipped when it is the
next token.  Both header shapes are covered: `class Outer {` and
`class SDLPP_EXPORT Outer {`. -/
theorem claim5_theorem :
    (∀ (O I : Str) (es : List Str),
      pySplit ("class ".data ++ O ++ " \x7b".data) =
        ["class".data, O, "\x7b".data] →
      O ≠ "SDLPP_EXPORT".data →
      pyStrip ("class ".data ++ O ++ " \x7b".data) =
        "class ".data ++ O ++ " \x7b".data →
      pyIn "using".data ("class ".data ++ O ++ " \x7b".data) = false →
      pyIn "class".data ("class ".data ++ O ++ " \x7b".data) = true →
      pyIn "enum".data ("class ".data ++ O ++ " \x7b".data) = false →
      pyIn "\x7b".data ("class ".data ++ O ++ " \x7b".data) = true →
      pyIn "\x7d".data ("class ".data ++ O ++ " \x7b".data) = false →
      pyStrip ("enum class ".data ++ I ++ " \x7b".data) =
        "enum class ".data ++ I ++ " \x7b".data →
      pyIn "using".data ("enum class ".data ++ I ++ " \x7b".data) = false →
      (pySplit ("enum class ".data ++ I ++ " \x7b".data)).find? (fun t =>
        decide (t ≠ "enum".data ∧ t ≠ "class".data ∧ t ≠ "\x7b".data)) =
        some I →
      pyIn "\x7b".data ("enum class ".data ++ I ++ " \x7b".data) = true →
      pyIn "\x7d".data ("enum class ".data ++ I ++ " \x7b".data) = false →
      (∀ l ∈ es, pySplit l = [l] ∧ pyIn "using".data l = false ∧
        pyIn "enum".data l = false ∧ pyIn "\x7b".data l = false ∧
        pyIn "\x7d".data l = false) →
      parse_enum (("class ".data ++ O ++ " \x7b".data) ::
          ("enum class ".data ++ I ++ " \x7b".data) ::
          (es ++ ["\x7d;".data, "\x7d;".data])) =
        some [(O ++ "::".data ++ I, es)]) ∧
    (∀ (O I : Str) (es : List Str),
      pySplit ("class SDLPP_EXPORT ".data ++ O ++ " \x7b".data) =
        ["class".data, "SDLPP_EXPORT".data, O, "\x7b".data] →
      pyStrip ("class SDLPP_EXPORT ".data ++ O ++ " \x7b".data) =
        "class SDLPP_EXPORT ".data ++ O ++ " \x7b".data →
      pyIn "using".data ("class SDLPP_EXPORT ".data ++ O ++ " \x7b".data) =
        false →
      pyIn "class".data ("class SDLPP_EXPORT ".data ++ O ++ " \x7b".data) =
        true →
      pyIn "enum".data ("class SDLPP_EXPORT ".data ++ O ++ " \x7b".data) =
        false →
      pyIn "\x7b".data ("class SDLPP_EXPORT ".data ++ O ++ " \x7b".data) =
        true →
      pyIn "\x7d".data ("class SDLPP_EXPORT ".data ++ O ++ " \x7b".data) =
        false →
      pyStrip ("enum class ".data ++ I ++ " \x7b".data) =
        "enum class ".data ++ I ++ " \x7b".data →
      pyIn "using".data ("enum class ".data ++ I ++ " \x7b".data) = false →
      (pySplit ("enum class ".data ++ I ++ " \x7b".data)).find? (fun t =>
        decide (t ≠ "enum".data ∧ t ≠ "class".data ∧ t ≠ "\x7b".data)) =
        some I →
      pyIn "\x7b".data ("enum class ".data ++ I ++ " \x7b".data) = true →
      pyIn "\x7d".data ("enum class ".data ++ I ++ " \x7b".data) = false →
      (∀ l ∈ es, pySplit l = [l] ∧ pyIn "using".data l = false ∧
        pyIn "enum".data l = false ∧ pyIn "\x7b".data l = false ∧
        pyIn "\x7d".data l = false) →
      parse_enum (("class SDLPP_EXPORT ".data ++ O ++ " \x7b".data) ::
          ("enum class ".data ++ I ++ " \x7b".data) ::
          (es ++ ["\x7d;".data, "\x7d;".data])) =
        some [(O ++ "::".data ++ I, es)]) := by
  constructor
  · intro O I es hsplitA hOx hsA huA hcA heA hobA hcbA hsB huB hfB hobB
      hcbB hes
    have hO : O ≠ [] :=
      (pySplit_tokens O (by rw [hsplitA]; simp)).1
    have h0A : "class ".data ++ O ++ " \x7b".data ≠ [] := by simp
    have hscan : scanClass (pySplit ("class ".data ++ O ++ " \x7b".data)) =
        ClassScan.found O := by
      rw [hsplitA]
      exact scanClass_cons_plain O _ hOx
    have h0B : "enum class ".data ++ I ++ " \x7b".data ≠ [] := by simp
    have heB : pyIn "enum".data ("enum class ".data ++ I ++ " \x7b".data) =
        true := pyIn_of_isPfx rfl h0B
    have hfB2 : findEnumName
        (pySplit ("enum class ".data ++ I ++ " \x7b".data)) = some I := by
      rw [findEnumName_eq_find?]
      exact hfB
    unfold parse_enum
    rw [runLines_cons_some _
      (enumLine_classHeader (s := initState) rfl rfl hsA h0A huA hcA heA
        hscan hO hobA hcbA)]
    rw [runLines_inner_enum_block
      (s := { initState with current_class := O, brace := initState.brace + 1 })
      hO rfl hsB h0B huB heB hfB2 hobB hcbB hes, Option.map_some']
    show some (appendAll (dictSet [] (O ++ "::".data ++ I) [])
      (O ++ "::".data ++ I) es) = some [(O ++ "::".data ++ I, es)]
    rw [dictSet_nil, appendAll_single, List.nil_append]
  · intro O I es hsplitA hsA huA hcA heA hobA hcbA hsB huB hfB hobB hcbB hes
    have hO : O ≠ [] :=
      (pySplit_tokens O (by rw [hsplitA]; simp)).1
    have h0A : "class SDLPP_EXPORT ".data ++ O ++ " \x7b".data ≠ [] := by
      simp
    have hscan : scanClass
        (pySplit ("class SDLPP_EXPORT ".data ++ O ++ " \x7b".data)) =
        ClassScan.found O := by
      rw [hsplitA]
      exact scanClass_cons_export O _
    have h0B : "enum class ".data ++ I ++ " \x7b".data ≠ [] := by simp
    have heB : pyIn "enum".data ("enum class ".data ++ I ++ " \x7b".data) =
        true := pyIn_of_isPfx rfl h0B
    have hfB2 : findEnumName
        (pySplit ("enum class ".data ++ I ++ " \x7b".data)) = some I := by
      rw [findEnumName_eq_find?]
      exact hfB
    unfold parse_enum
    rw [runLines_cons_some _
      (enumLine_classHeader (s := initState) rfl rfl hsA h0A huA hcA heA
        hscan hO hobA hcbA)]
    rw [runLines_inner_enum_block
      (s := { initState with current_class := O, brace := initState.brace + 1 })
      hO rfl hsB h0B huB heB hfB2 hobB hcbB hes, Option.map_some']
    show some (appendAll (dictSet [] (O ++ "::".data ++ I) [])
      (O ++ "::".data ++ I) es) = some [(O ++ "::".data ++ I, es)]
    rw [dictSet_nil, appendAll_single, List.nil_append]

/-- Witness for C5 on a concrete nested declaration, with and without
the export annotation. -/
theorem claim5_witness :
    parse_enum ["class Outer \x7b".data, "enum class Inner \x7b".data,
        "A".data, "\x7d;".data, "\x7d;".data] =
      some [("Outer::Inner".data, ["A".data])] ∧
    parse_enum ["class SDLPP_EXPORT Outer \x7b".data,
        "enum class Inner \x7b".data, "A".data, "\x7d;".data,
        "\x7d;".data] =
      some [("Outer::Inner".data, ["A".data])] :=
  ⟨claim5_theorem.1 "Outer".data "Inner".data ["A".data]
      (by decide) (by decide) (by decide) (by decide) (by decide)
      (by decide) (by decide) (by decide) (by decide) (by decide)
      (by decide) (by decide) (by decide) (by decide),
    claim5_theorem.2 "Outer".data "Inner".data ["A".data]
      (by decide) (by decide) (by decide) (by decide) (by decide)
      (by decide) (by decide) (by decide) (by decide) (by decide)
      (by decide) (by decide) (by decide)⟩

/-- Side conditions under which a line is a plain single-token
enumerator line for the enum scanner. -/
abbrev plainTok (l : Str) : Prop :=
  pySplit l = [l] ∧ pyIn "using".data l = false ∧
  pyIn "class".data l = false ∧ pyIn "enum".data l = false ∧
  pyIn "\x7d".data l = false

/-- Side conditions under which `FLAG(x)` is a plain flag line for the
bitflag scanner. -/
abbrev flagTok (x : Str) : Prop :=
  x ≠ [] ∧ pyStrip x = x ∧ ')' ∉ x ∧
  pyIn "using".data (mkFlag x) = false ∧
  pyIn "class".data (mkFlag x) = false ∧
  pyIn "BEGIN_BITFLAGS".data (mkFlag x) = false ∧
  pyIn "END_BITFLAGS".data (mkFlag x) = false

/-- Side conditions on a top-level enum header line declaring `nm`. -/
abbrev enumHeader (hdr nm : Str) : Prop :=
  pyStrip hdr = hdr ∧ hdr ≠ [] ∧ pyIn "using".data hdr = false ∧
  pyIn "enum".data hdr = true ∧
  (pySplit hdr).find? (fun t =>
    decide (t ≠ "enum".data ∧ t ≠ "class".data ∧ t ≠ "\x7b".data)) = some nm

/-- Side conditions on the name of a `BEGIN_BITFLAGS(nm)` line. -/
abbrev beginName (nm : Str) : Prop :=
  nm ≠ [] ∧ pyStrip nm = nm ∧ ')' ∉ nm ∧
  pyIn "using".data (mkBegin nm) = false ∧
  pyIn "class".data (mkBegin nm) = false

/-- C6: when the same declaration name is introduced twice in one scan —
two enum blocks, or two `BEGIN_BITFLAGS` blocks, with the same key — the
returned mapping has exactly one entry for that key, holding the value
list accumulated for the later occurrence; the earlier list is silently
overwritten. -/
theorem claim6_theorem :
    (∀ (hdr1 hdr2 nm : Str) (es1 es2 : List Str),
      enumHeader hdr1 nm → enumHeader hdr2 nm →
      (∀ l ∈ es1, plainTok l) → (∀ l ∈ es2, plainTok l) →
      parse_enum ((hdr1 :: (es1 ++ ["\x7d".data])) ++
        (hdr2 :: (es2 ++ ["\x7d".data]))) = some [(nm, es2)]) ∧
    (∀ (nm : Str) (xs1 xs2 : List Str),
      beginName nm → (∀ x ∈ xs1, flagTok x) → (∀ x ∈ xs2, flagTok x) →
      parse_bitflags ((mkBegin nm :: (xs1.map mkFlag ++
          ["END_BITFLAGS".data])) ++
        (mkBegin nm :: (xs2.map mkFlag ++ ["END_BITFLAGS".data]))) =
        some [(nm, xs2)]) := by
  constructor
  · intro hdr1 hdr2 nm es1 es2 hh1 hh2 hes1 hes2
    obtain ⟨hs1, h01, hu1, he1, hf1⟩ := hh1
    obtain ⟨hs2, h02, hu2, he2, hf2⟩ := hh2
    have hf1' : findEnumName (pySplit hdr1) = some nm := by
      rw [findEnumName_eq_find?]; exact hf1
    have hf2' : findEnumName (pySplit hdr2) = some nm := by
      rw [findEnumName_eq_find?]; exact hf2
    unfold parse_enum
    rw [runLines_append, runLines_enum_closed_block (s := initState) rfl
      hs1 h01 hu1 he1 hf1' hes1]
    show Option.map ScanState.out (runLines enumLine
      { initState with current_enum := [], out := appendAll (dictSet [] nm []) nm es1 }
      (hdr2 :: (es2 ++ ["\x7d".data]))) = some [(nm, es2)]
    rw [runLines_enum_closed_block
      (s := { initState with current_enum := [], out := appendAll (dictSet [] nm []) nm es1 })
      rfl hs2 h02 hu2 he2 hf2' hes2, Option.map_some']
    show some (appendAll (dictSet (appendAll (dictSet [] nm []) nm es1)
      nm []) nm es2) = some [(nm, es2)]
    rw [dictSet_nil, appendAll_single, List.nil_append, dictSet_same,
      appendAll_single, List.nil_append]
  · intro nm xs1 xs2 hb hxs1 hxs2
    obtain ⟨hn0, hsn, hrn, hu, hc⟩ := hb
    unfold parse_bitflags
    rw [runLines_append, runLines_bf_closed_block (s := initState) rfl
      hn0 hsn hrn hu hc hxs1]
    show Option.map ScanState.out (runLines bitflagLine
      { initState with current_enum := [], out := appendAll (dictSet [] nm []) nm xs1 }
      (mkBegin nm :: (xs2.map mkFlag ++ ["END_BITFLAGS".data]))) =
      some [(nm, xs2)]
    rw [runLines_bf_closed_block
      (s := { initState with current_enum := [], out := appendAll (dictSet [] nm []) nm xs1 })
      rfl hn0 hsn hrn hu hc hxs2, Option.map_some']
    show some (appendAll (dictSet (appendAll (dictSet [] nm []) nm xs1)
      nm []) nm xs2) = some [(nm, xs2)]
    rw [dictSet_nil, appendAll_single, List.nil_append, dictSet_same,
      appendAll_single, List.nil_append]

/-- Witness for C6: the same enum name (resp. bitflag name) twice; only
the later value list survives. -/
theorem claim6_witness :
    parse_enum ["enum Color \x7b".data, "Red".data, "\x7d".data,
        "enum Color \x7b".data, "Blue".data, "\x7d".data] =
      some [("Color".data, ["Blue".data])] ∧
    parse_bitflags ["BEGIN_BITFLAGS(Mask)".data, "FLAG(A)".data,
        "END_BITFLAGS".data, "BEGIN_BITFLAGS(Mask)".data, "FLAG(B)".data,
        "END_BITFLAGS".data] =
      some [("Mask".data, ["B".data])] :=
  ⟨claim6_theorem.1 "enum Color \x7b".data "enum Color \x7b".data
      "Color".data ["Red".data] ["Blue".data]
      (by decide) (by decide) (by decide) (by decide),
    claim6_theorem.2 "Mask".data ["A".data] ["B".data]
      (by decide) (by decide) (by decide)⟩

/-- C9: a new declaration-start line appearing while a previous
declaration is still open silently closes the previous one: the earlier
entry keeps exactly the names seen before the new start, all later names
accrue to the new entry, and the scan still succeeds (no error). -/
theorem claim9_theorem :
    (∀ (hdr1 hdr2 nm1 nm2 : Str) (es1 es2 : List Str),
      enumHeader hdr1 nm1 → enumHeader hdr2 nm2 → nm1 ≠ nm2 →
      (∀ l ∈ es1, plainTok l) → (∀ l ∈ es2, plainTok l) →
      parse_enum ((hdr1 :: es1) ++ (hdr2 :: (es2 ++ ["\x7d".data]))) =
        some [(nm1, es1), (nm2, es2)]) ∧
    (∀ (nm1 nm2 : Str) (xs1 xs2 : List Str),
      beginName nm1 → beginName nm2 → nm1 ≠ nm2 →
      (∀ x ∈ xs1, flagTok x) → (∀ x ∈ xs2, flagTok x) →
      parse_bitflags ((mkBegin nm1 :: xs1.map mkFlag) ++
        (mkBegin nm2 :: (xs2.map mkFlag ++ ["END_BITFLAGS".data]))) =
        some [(nm1, xs1), (nm2, xs2)]) := by
  constructor
  · intro hdr1 hdr2 nm1 nm2 es1 es2 hh1 hh2 hne hes1 hes2
    obtain ⟨hs1, h01, hu1, he1, hf1⟩ := hh1
    obtain ⟨hs2, h02, hu2, he2, hf2⟩ := hh2
    have hf1' : findEnumName (pySplit hdr1) = some nm1 := by
      rw [findEnumName_eq_find?]; exact hf1
    have hf2' : findEnumName (pySplit hdr2) = some nm2 := by
      rw [findEnumName_eq_find?]; exact hf2
    have hne' : nm2 ≠ nm1 := fun he => hne he.symm
    unfold parse_enum
    rw [runLines_append, runLines_enum_open_block (s := initState) rfl
      hs1 h01 hu1 he1 hf1' hes1]
    show Option.map ScanState.out (runLines enumLine
      { initState with current_enum := nm1, out := appendAll (dictSet [] nm1 []) nm1 es1 }
      (hdr2 :: (es2 ++ ["\x7d".data]))) = some [(nm1, es1), (nm2, es2)]
    rw [runLines_enum_closed_block
      (s := { initState with current_enum := nm1, out := appendAll (dictSet [] nm1 []) nm1 es1 })
      rfl hs2 h02 hu2 he2 hf2' hes2, Option.map_some']
    show some (appendAll (dictSet (appendAll (dictSet [] nm1 []) nm1 es1)
      nm2 []) nm2 es2) = some [(nm1, es1), (nm2, es2)]
    rw [dictSet_nil, appendAll_single, List.nil_append, dictSet_new hne',
      appendAll_cons_other hne, appendAll_single, List.nil_append]
  · intro nm1 nm2 xs1 xs2 hb1 hb2 hne hxs1 hxs2
    obtain ⟨hn01, hsn1, hrn1, hu1, hc1⟩ := hb1
    obtain ⟨hn02, hsn2, hrn2, hu2, hc2⟩ := hb2
    have hne' : nm2 ≠ nm1 := fun he => hne he.symm
    unfold parse_bitflags
    rw [runLines_append, runLines_bf_open_block (s := initState) rfl
      hn01 hsn1 hrn1 hu1 hc1 hxs1]
    show Option.map ScanState.out (runLines bitflagLine
      { initState with current_enum := nm1, out := appendAll (dictSet [] nm1 []) nm1 xs1 }
      (mkBegin nm2 :: (xs2.map mkFlag ++ ["END_BITFLAGS".data]))) =
      some [(nm1, xs1), (nm2, xs2)]
    rw [runLines_bf_closed_block
      (s := { initState with current_enum := nm1, out := appendAll (dictSet [] nm1 []) nm1 xs1 })
      rfl hn02 hsn2 hrn2 hu2 hc2 hxs2, Option.map_some']
    show some (appendAll (dictSet (appendAll (dictSet [] nm1 []) nm1 xs1)
      nm2 []) nm2 xs2) = some [(nm1, xs1), (nm2, xs2)]
    rw [dictSet_nil, appendAll_single, List.nil_append, dictSet_new hne',
      appendAll_cons_other hne, appendAll_single, List.nil_append]

/-- Witness for C9: a second declaration starts while the first is still
open; both entries appear, split at the second start line. -/
theorem claim9_witness :
    parse_enum ["enum Color \x7b".data, "Red".data,
        "enum Mode \x7b".data, "On".data, "\x7d".data] =
      some [("Color".data, ["Red".data]), ("Mode".data, ["On".data])] ∧
    parse_bitflags ["BEGIN_BITFLAGS(A1)".data, "FLAG(X)".data,
        "BEGIN_BITFLAGS(B2)".data, "FLAG(Y)".data,
        "END_BITFLAGS".data] =
      some [("A1".data, ["X".data]), ("B2".data, ["Y".data])] :=
  ⟨claim9_theorem.1 "enum Color \x7b".data "enum Mode \x7b".data
      "Color".data "Mode".data ["Red".data] ["On".data]
      (by decide) (by decide) (by decide) (by decide) (by decide),
    claim9_theorem.2 "A1".data "B2".data ["X".data] ["Y".data]
      (by decide) (by decide) (by decide) (by decide) (by decide)⟩

/-- C8: malformed structural input faults the scan and yields no
mapping: a reached `BEGIN_BITFLAGS` line without `(` or `)` makes the
whole scan return `none`; a `FLAG` line reached while a bitflag set is
active without its parenthesis likewise kills the scan wherever it
occurs; and a line whose first `class` token is its final token (with no
enclosing type active and no `enum` in the line) faults the token-list
index lookup — in every case no partial mapping is returned. -/
theorem claim8_theorem :
    (∀ (lines : List Str) (l : Str), l ∈ lines →
      pyIn "BEGIN_BITFLAGS".data (pyStrip l) = true →
      pyIn "using".data (pyStrip l) = false →
      (firstIdx '(' (pyStrip l) = none ∨
        firstIdx ')' (pyStrip l) = none) →
      parse_bitflags lines = none) ∧
    (∀ (pre post : List Str) (s : ScanState) (l : Str),
      runLines bitflagLine initState pre = some s →
      s.current_enum ≠ [] →
      pyIn "BEGIN_BITFLAGS".data (pyStrip l) = false →
      pyIn "END_BITFLAGS".data (pyStrip l) = false →
      pyIn "FLAG".data (pyStrip l) = true →
      pyIn "using".data (pyStrip l) = false →
      (firstIdx '(' (pyStrip l) = none ∨
        firstIdx ')' (pyStrip l) = none) →
      parse_bitflags (pre ++ l :: post) = none) ∧
    (∀ (pre post ts : List Str) (s : ScanState) (l : Str),
      runLines bitflagLine initState pre = some s →
      s.current_class = [] →
      pyIn "class".data (pyStrip l) = true →
      pyIn "enum".data (pyStrip l) = false →
      pyIn "using".data (pyStrip l) = false →
      pySplit (pyStrip l) = ts ++ ["class".data] →
      "class".data ∉ ts →
      parse_bitflags (pre ++ l :: post) = none) := by
  refine ⟨?_, ?_, ?_⟩
  · intro lines l hmem hb hu hp
    unfold parse_bitflags
    rw [runLines_bf_begin_fault lines initState l hmem hb hu hp]
    rfl
  · intro pre post s l hpre ha hnb hne hfl hu hp
    exact runLines_bf_fault_after rfl hpre
      (bitflagLine_flag_fault ha hnb hne hfl hu hp)
  · intro pre post ts s l hpre hclass hc he hu hsplit hmem
    exact runLines_bf_fault_after rfl hpre
      (bitflagLine_class_fault hclass hc he hu hsplit hmem)

/-- Witness for C8 on three concrete malformed inputs. -/
theorem claim8_witness :
    parse_bitflags ["BEGIN_BITFLAGS Mask".data] = none ∧
    parse_bitflags (["BEGIN_BITFLAGS(M)".data] ++ "FLAG A".data :: []) =
      none ∧
    parse_bitflags ([] ++ "struct Foo class".data :: []) = none :=
  ⟨claim8_theorem.1 ["BEGIN_BITFLAGS Mask".data]
      "BEGIN_BITFLAGS Mask".data (by decide) (by decide) (by decide)
      (Or.inl (by decide)),
    claim8_theorem.2.1 ["BEGIN_BITFLAGS(M)".data] []
      ⟨[("M".data, [])], "M".data, [], 0⟩ "FLAG A".data (by decide)
      (by decide) (by decide) (by decide) (by decide) (by decide)
      (Or.inl (by decide)),
    claim8_theorem.2.2 [] [] ["struct".data, "Foo".data] initState
      "struct Foo class".data rfl rfl (by decide) (by decide) (by decide)
      (by decide) (by decide)⟩

/-- C10: the begin/end marker checks take precedence over the `FLAG`
check, although both marker strings contain `FLAG` as a substring: an
`END_BITFLAGS` line (that is not also a begin line) never changes the
dict at all; a `BEGIN_BITFLAGS` line only ever contributes an empty
value list, never a flag name; and a `FLAG()` line with an empty
parenthesized name is silently dropped, leaving the dict unchanged. -/
theorem claim10_theorem :
    (∀ (s st2 : ScanState) (raw : Str),
      pyIn "END_BITFLAGS".data (pyStrip raw) = true →
      pyIn "BEGIN_BITFLAGS".data (pyStrip raw) = false →
      pyIn "using".data (pyStrip raw) = false →
      bitflagLine s raw = some st2 → st2.out = s.out) ∧
    (∀ (s st2 : ScanState) (raw : Str),
      pyIn "BEGIN_BITFLAGS".data (pyStrip raw) = true →
      pyIn "using".data (pyStrip raw) = false →
      bitflagLine s raw = some st2 →
      ∀ e ∈ st2.out, e.2 = [] ∨ e ∈ s.out) ∧
    (∀ (s st2 : ScanState) (raw : Str),
      pyIn "BEGIN_BITFLAGS".data (pyStrip raw) = false →
      pyIn "END_BITFLAGS".data (pyStrip raw) = false →
      pyIn "using".data (pyStrip raw) = false →
      extractParen (pyStrip raw) = some [] →
      bitflagLine s raw = some st2 → st2.out = s.out) :=
  ⟨fun _ _ _ h1 h2 h3 h4 => bitflagLine_end_out h1 h2 h3 h4,
    fun _ _ _ h1 h2 h3 => bitflagLine_begin_only_empty h1 h2 h3,
    fun _ _ _ h1 h2 h3 h4 h5 => bitflagLine_flag_empty_out h1 h2 h3 h4 h5⟩

/-- Witness for C10 on a state with one recorded flag set. -/
theorem claim10_witness :
    ((⟨[("M".data, ["A".data])], [], [], 0⟩ : ScanState).out =
      (⟨[("M".data, ["A".data])], "M".data, [], 0⟩ : ScanState).out) ∧
    (∀ e ∈ (⟨[("M".data, ["A".data]), ("N".data, [])], "N".data, [], 0⟩ :
        ScanState).out,
      e.2 = [] ∨ e ∈ (⟨[("M".data, ["A".data])], "M".data, [], 0⟩ :
        ScanState).out) ∧
    ((⟨[("M".data, ["A".data])], "M".data, [], 0⟩ : ScanState).out =
      (⟨[("M".data, ["A".data])], "M".data, [], 0⟩ : ScanState).out) :=
  ⟨claim10_theorem.1 ⟨[("M".data, ["A".data])], "M".data, [], 0⟩
      ⟨[("M".data, ["A".data])], [], [], 0⟩ "END_BITFLAGS".data
      (by decide) (by decide) (by decide) (by decide),
    claim10_theorem.2.1 ⟨[("M".data, ["A".data])], "M".data, [], 0⟩
      ⟨[("M".data, ["A".data]), ("N".data, [])], "N".data, [], 0⟩
      "BEGIN_BITFLAGS(N)".data (by decide) (by decide) (by decide),
    claim10_theorem.2.2 ⟨[("M".data, ["A".data])], "M".data, [], 0⟩
      ⟨[("M".data, ["A".data])], "M".data, [], 0⟩ "FLAG()".data
      (by decide) (by decide) (by decide) (by decide) (by decide)⟩
